import Mathlib

/-!
# Gas station simulation: a verification development

Shallow embedding of `main.go`.

* A Go map is an association list with distinct keys, listed in the order in which a `range`
  loop visits it; every permutation of the list is a possible visiting order.
* A buffered channel is the list of the values it holds; `len` is the length of the list.
* `time.Duration` and `time.Time` are integers (nanoseconds); no computed duration leaves the
  `int64` range, since it is bounded by the configured maximum.
* `float32` arithmetic is a rounding function `fl : ℚ → ℚ` applied after every conversion and
  operation; the results that depend on it assume that `fl` is monotone and exact on the
  integers up to `2 ^ 24`.
* The goroutines of `simulateGasStation` are a transition system.  A step is a block of
  statements of one goroutine; random draws, clock readings and visiting orders come with the
  event.  The arrival generator builds a vehicle in one step and routes and sends it in the
  next, so that a state records a generator that waits at its send.  For a worker the receive,
  the locked part up to `time.Sleep`, the part after the sleep and `wg.Done()` are separate
  steps, so that a state records which worker sleeps and who holds `mu`.  The steps of
  different goroutines interleave freely.  A runtime panic and a goroutine that cannot
  proceed are both `none`.
* The counter of the `sync.WaitGroup` is a 32-bit signed number.
-/

namespace GasStation

/-! ## Data model -/

/-- The constant `math.MaxInt64`. -/
def maxInt64 : Int := 9223372036854775807

/-- The conversion `int32(n)`: the low 32 bits of `n` as a signed number.  The counter of a
`sync.WaitGroup` is one. -/
def toInt32 (n : Int) : Int := (n + 2147483648) % 4294967296 - 2147483648

/-- The global `time_mode` (`time.Millisecond`, in nanoseconds). -/
def time_mode : Int := 1000000

structure Fuel where
  name : String
deriving DecidableEq, Repr

structure Station where
  fuel : Fuel
  id : String
  serve_time_min : Int
  serve_time_max : Int
  numVehicle : Int
deriving DecidableEq, Repr

structure Register where
  handle_time_min : Int
  handle_time_max : Int
deriving DecidableEq, Repr

structure Vehicle where
  id : Int
  fuel : Fuel
  time_start_in_register_queue : Int
  time_start_in_station_queue : Int
deriving DecidableEq, Repr

/-- The zero value of `Station` (what `var shortest_station Station` holds). -/
def zeroStation : Station :=
  { fuel := { name := "" }, id := "", serve_time_min := 0, serve_time_max := 0, numVehicle := 0 }

def getSupportedFuels : List String := ["gas", "diesel", "lpg", "electric"]

/-! ## Queue router -/

/-- One iteration of the loop of `getShortestQueueStation`; the accumulator is
`(shortest_queue_len, shortest_station)`. -/
def stationLoopBody (car_fuel : Fuel) (acc : Int × Station) (e : Station × List Vehicle) :
    Int × Station :=
  if e.1.fuel.name = car_fuel.name then
    if (e.2.length : Int) < acc.1 then ((e.2.length : Int), e.1) else acc
  else acc

/-- The function `getShortestQueueStation`; `station_queues` lists the map in the order the
`range` loop visits it. -/
def getShortestQueueStation (station_queues : List (Station × List Vehicle)) (car_fuel : Fuel) :
    Station :=
  (station_queues.foldl (stationLoopBody car_fuel) (maxInt64, zeroStation)).2

/-- One iteration of the loop of `getShortestQueueRegister`; the accumulator is
`(shortest, shortestIndex)`. -/
def registerLoopBody (acc : Int × Int) (e : Int × List Vehicle) : Int × Int :=
  if (e.2.length : Int) < acc.1 then ((e.2.length : Int), e.1) else acc

/-- The function `getShortestQueueRegister`. -/
def getShortestQueueRegister (queues : List (Int × List Vehicle)) : Int :=
  (queues.foldl registerLoopBody (maxInt64, -1)).2

/-! ## Go maps -/

/-- Lookup `m[k]` in a Go map; `none` when the key is absent. -/
def mapGet {K V : Type} [DecidableEq K] : List (K × V) → K → Option V
  | [], _ => none
  | (k', v) :: m, k => if k' = k then some v else mapGet m k

/-- Assignment `m[k] = v` in a Go map. -/
def mapSet {K V : Type} [DecidableEq K] : List (K × V) → K → V → List (K × V)
  | [], k, v => [(k, v)]
  | (k', v') :: m, k, v => if k' = k then (k', v) :: m else (k', v') :: mapSet m k v

/-! ## Configuration and resource pool -/

/-- One value of the global `config` map. -/
structure ConfigEntry where
  num : Int
  serve_time_min : Int
  serve_time_max : Int
deriving DecidableEq, Repr

/-- The type of the global `config` map, listed in `range` order. -/
abbrev Config := List (String × ConfigEntry)

/-- The global `config` as the source declares it. -/
def config : Config :=
  [ ("gas", { num := 2, serve_time_min := 2 * time_mode, serve_time_max := 5 * time_mode }),
    ("diesel", { num := 2, serve_time_min := 3 * time_mode, serve_time_max := 6 * time_mode }),
    ("lpg", { num := 1, serve_time_min := 4 * time_mode, serve_time_max := 7 * time_mode }),
    ("electric", { num := 1, serve_time_min := 5 * time_mode, serve_time_max := 10 * time_mode }),
    ("register", { num := 2, serve_time_min := 1 * time_mode, serve_time_max := 3 * time_mode }),
    ("car", { num := 1500, serve_time_min := 1 * time_mode, serve_time_max := 2 * time_mode }) ]

/-- The function `strconv.Itoa` on the non-negative numbers the program passes to it. -/
def Itoa (n : Nat) : String := Nat.repr n

/-- The number a decimal numeral denotes (the inverse of `Itoa`). -/
def decodeDigits (l : List Char) : Nat := l.foldl (fun acc c => acc * 10 + (c.toNat - 48)) 0

/-- The station that the inner loop of `initGasStation` builds for loop index `i`. -/
def mkStation (type_of_fuel : String) (values : ConfigEntry) (i : Nat) : Station :=
  { fuel := { name := type_of_fuel },
    id := type_of_fuel ++ "_" ++ Itoa (i + 1),
    serve_time_min := values.serve_time_min,
    serve_time_max := values.serve_time_max,
    numVehicle := 0 }

/-- The stations appended for one entry of `config` (the body of the outer loop). -/
def stationsOfEntry (e : String × ConfigEntry) : List Station :=
  if e.1 ∈ getSupportedFuels then (List.range e.2.num.toNat).map (mkStation e.1 e.2) else []

/-- The function `initGasStation`; `none` stands for the nil dereference of a missing
`config["register"]`. -/
def initGasStation (config : Config) : Option (List Station × List Register) :=
  let stations := (config.map stationsOfEntry).flatten
  match mapGet config "register" with
  | none => none
  | some reg =>
    some (stations,
      (List.range reg.num.toNat).map fun _ =>
        { handle_time_min := reg.serve_time_min, handle_time_max := reg.serve_time_max })

/-- The loop of `simulateGasStation` that fills `station_queues` with empty channels. -/
def mkStationQueues (stations : List Station) : List (Station × List Vehicle) :=
  stations.foldl (fun m station => mapSet m station []) []

/-- The loop of `simulateGasStation` that fills `register_queues` with empty channels. -/
def mkRegisterQueues (registers : List Register) : List (Int × List Vehicle) :=
  (List.range registers.length).foldl (fun m i => mapSet m (i : Int) []) []

/-! ## Statistics -/

/-- One record of the `stats` map. -/
structure Stats where
  total_car : Int
  total_time : Int
  total_queue_time : Int
  max_queue_time : Int
deriving DecidableEq, Repr

/-- The initial value of every record of `stats`. -/
def zeroStats : Stats :=
  { total_car := 0, total_time := 0, total_queue_time := 0, max_queue_time := -1 }

/-- The initial `stats` map. -/
def initStats : List (String × Stats) :=
  [("gas", zeroStats), ("diesel", zeroStats), ("lpg", zeroStats), ("electric", zeroStats),
   ("register", zeroStats)]

/-- The statistics update both workers perform on their record: `duration` is
`rnd_serve_time * time_mode` and `time_in_que` is `time.Since(...)`. -/
def updateStats (st : Stats) (duration time_in_que : Int) : Stats :=
  let st := { st with total_car := st.total_car + 1 }
  let st := { st with total_time := st.total_time + duration }
  let st := if time_in_que > st.max_queue_time then { st with max_queue_time := time_in_que } else st
  { st with total_queue_time := st.total_queue_time + time_in_que }

/-- Folding a list of observations `(duration, time_in_que)` into a record, in list order. -/
def recordAll (st : Stats) (obs : List (Int × Int)) : Stats :=
  obs.foldl (fun st o => updateStats st o.1 o.2) st

/-! ## Randomised durations

`float32` arithmetic is abstracted by a rounding function `fl : ℚ → ℚ` applied after every
conversion and operation; the conversion `time.Duration(x)` truncates towards zero. -/

/-- Conversion of a floating-point value to an integer: truncation towards zero. -/
def truncate (q : ℚ) : Int := Int.tdiv q.num q.den

/-- The value `rnd_serve_time` of the station worker for the random draw `r`. -/
def rnd_serve_time (fl : ℚ → ℚ) (station : Station) (r : ℚ) : Int :=
  truncate (fl (fl ((Int.tdiv station.serve_time_min time_mode : Int) : ℚ) +
    fl (r * fl ((Int.tdiv station.serve_time_max time_mode
      - Int.tdiv station.serve_time_min time_mode : Int) : ℚ))))

/-- The service duration of the station worker, `rnd_serve_time * time_mode`. -/
def serveDuration (fl : ℚ → ℚ) (station : Station) (r : ℚ) : Int :=
  rnd_serve_time fl station r * time_mode

/-- The value `rnd_handle_time` of the register worker for the random draw `r`. -/
def rnd_handle_time (fl : ℚ → ℚ) (register : Register) (r : ℚ) : Int :=
  truncate (fl (fl ((Int.tdiv register.handle_time_min time_mode : Int) : ℚ) +
    fl (r * fl (fl ((Int.tdiv register.handle_time_max time_mode : Int) : ℚ)
      - fl ((Int.tdiv register.handle_time_min time_mode : Int) : ℚ)))))

/-- The handle duration of the register worker, `rnd_handle_time * time_mode`. -/
def handleDuration (fl : ℚ → ℚ) (register : Register) (r : ℚ) : Int :=
  rnd_handle_time fl register r * time_mode

/-! ## The simulation as a transition system

One goroutine per station, one per register, one arrival generator.  Every step below is a
block of statements of one goroutine that runs without yielding observable control: the random
draws, the clock readings and the order in which a `range` loop visits a map are supplied by
the event. -/

/-- Where a station worker stands in its loop body: waiting at the receive, holding a vehicle
in front of `mu.Lock()`, or inside `time.Sleep` (statistics already updated). -/
inductive StationPc where
  | recv
  | lock (v : Vehicle)
  | sleep (v : Vehicle) (d : Int)
deriving DecidableEq, Repr

/-- Where a register worker stands in its loop body: waiting at the receive, in front of
`mu.Lock()`, inside `time.Sleep`, or between `mu.Unlock()` and `wg.Done()`. -/
inductive RegisterPc where
  | recv
  | lock (v : Vehicle)
  | sleep (v : Vehicle) (d : Int)
  | done (v : Vehicle)
deriving DecidableEq, Repr

/-- The worker goroutines, by their position in `stations` resp. `registers`. -/
inductive Worker where
  | station (j : Nat)
  | register (j : Nat)
deriving DecidableEq, Repr

/-- The state of `simulateGasStation` after its initialisation. `pending` is the vehicle the
arrival generator has built and not yet sent. `created`, `served` and `exited` are history
variables: the vehicles the arrival generator has enqueued, those a station worker has counted
in the statistics, and those for which `wg.Done()` has run. -/
structure State where
  stations : List Station
  registers : List Register
  num_cars : Int
  stats : List (String × Stats)
  wg : Int
  mu : Option Worker
  station_queues : List (Station × List Vehicle)
  register_queues : List (Int × List Vehicle)
  i : Nat
  pending : Option Vehicle
  station_pc : List StationPc
  register_pc : List RegisterPc
  created : List Vehicle
  served : List Vehicle
  exited : List Vehicle

/-- The initialisation of `simulateGasStation` up to the start of the goroutines. `none` is a
runtime panic: a missing `config` key, a `WaitGroup` counter that `wg.Add(num_cars)` makes
negative (the counter is 32 bits wide), `registers[0]` on an empty slice in
`printGasstationInitInfo`, or a channel of negative size. -/
def initState (config : Config) : Option State :=
  match mapGet config "car" with
  | none => none
  | some car =>
    if toInt32 car.num < 0 then none else
    match initGasStation config with
    | none => none
    | some (stations, registers) =>
      if registers = [] then none else
      if car.num < 0 then none else
      some
        { stations := stations
          registers := registers
          num_cars := car.num
          stats := initStats
          wg := toInt32 car.num
          mu := none
          station_queues := mkStationQueues stations
          register_queues := mkRegisterQueues registers
          i := 0
          pending := none
          station_pc := stations.map fun _ => StationPc.recv
          register_pc := registers.map fun _ => RegisterPc.recv
          created := []
          served := []
          exited := [] }

/-- The function `createVehicle` for the draw `k` of `rand.Intn(len(fuels))`. -/
def createVehicle (id : Int) (k : Nat) : Option Vehicle :=
  match getSupportedFuels.get? k with
  | none => none
  | some name =>
    some { id := id, fuel := { name := name }, time_start_in_register_queue := 0,
           time_start_in_station_queue := 0 }

/-- The steps of the goroutines. -/
inductive Event where
  /-- The arrival generator enters its loop body and builds a vehicle: draw `k`, clock
  `now`. -/
  | create (k : Nat) (now : Int)
  /-- The arrival generator picks a station (visiting order `order`), sends the vehicle it
  has built and prints; the loop counter advances. -/
  | enqueue (order : List (Station × List Vehicle))
  /-- Station worker `j` receives from its queue and prints. -/
  | stationRecv (j : Nat)
  /-- Station worker `j` takes the lock, draws `r`, updates the statistics at clock `now`
  and enters `time.Sleep`. -/
  | stationServe (j : Nat) (r : ℚ) (now : Int)
  /-- Station worker `j` wakes up, picks a register, sends the vehicle and unlocks. -/
  | stationRoute (j : Nat) (now : Int) (order : List (Int × List Vehicle))
  /-- Register worker `j` receives from its queue. -/
  | registerRecv (j : Nat)
  /-- Register worker `j` takes the lock, draws `r`, updates the statistics at clock `now`
  and enters `time.Sleep`. -/
  | registerHandle (j : Nat) (r : ℚ) (now : Int)
  /-- Register worker `j` wakes up and unlocks. -/
  | registerUnlock (j : Nat)
  /-- Register worker `j` calls `wg.Done()`; a counter that becomes negative is a panic. -/
  | registerDone (j : Nat)

/-- A send on the channel `m[k]` with capacity `cap`: `none` when the send cannot proceed (a
nil channel because the key is absent, or a full buffer). -/
def chanSend {K : Type} [DecidableEq K] (m : List (K × List Vehicle)) (k : K) (cap : Int)
    (v : Vehicle) : Option (List (K × List Vehicle)) :=
  match mapGet m k with
  | none => none
  | some q => if (q.length : Int) < cap then some (mapSet m k (q ++ [v])) else none

/-- A receive from the channel `m[k]`: `none` when the receive cannot proceed. -/
def chanRecv {K : Type} [DecidableEq K] (m : List (K × List Vehicle)) (k : K) :
    Option (Vehicle × List (K × List Vehicle)) :=
  match mapGet m k with
  | some (v :: q) => some (v, mapSet m k q)
  | _ => none

/-- The statistics update on the record `stats[key]`; `none` is the nil dereference of a
missing key. -/
def statsUpdate (stats : List (String × Stats)) (key : String) (duration time_in_que : Int) :
    Option (List (String × Stats)) :=
  match mapGet stats key with
  | none => none
  | some st => some (mapSet stats key (updateStats st duration time_in_que))

/-- One step of the simulation; `none` when the step is not enabled (the goroutine is not at
that point, it is blocked, or the program has panicked). -/
def step (fl : ℚ → ℚ) (s : State) : Event → Option State
  | .create k now =>
    match s.pending with
    | some _ => none
    | none =>
      if ¬ ((s.i : Int) < s.num_cars) then none else
      match createVehicle ((s.i : Int) + 1) k with
      | none => none
      | some vehicle0 =>
        some { s with pending := some { vehicle0 with time_start_in_station_queue := now } }
  | .enqueue order =>
    match s.pending with
    | none => none
    | some vehicle =>
      if ¬ order.Perm s.station_queues then none else
      let shortest_station := getShortestQueueStation order vehicle.fuel
      match chanSend s.station_queues shortest_station s.num_cars vehicle with
      | none => none
      | some qs =>
        some { s with station_queues := qs, i := s.i + 1, pending := none,
                      created := s.created ++ [vehicle] }
  | .stationRecv j =>
    match s.stations.get? j, s.station_pc.get? j with
    | some station, some StationPc.recv =>
      match chanRecv s.station_queues station with
      | none => none
      | some (vehicle, qs) =>
        some { s with station_queues := qs,
                      station_pc := s.station_pc.set j (StationPc.lock vehicle) }
    | _, _ => none
  | .stationServe j r now =>
    match s.stations.get? j, s.station_pc.get? j, s.mu with
    | some station, some (StationPc.lock vehicle), none =>
      let d := serveDuration fl station r
      match statsUpdate s.stats vehicle.fuel.name d (now - vehicle.time_start_in_station_queue) with
      | none => none
      | some stats =>
        some { s with mu := some (Worker.station j), stats := stats,
                      station_pc := s.station_pc.set j (StationPc.sleep vehicle d),
                      served := s.served ++ [vehicle] }
    | _, _, _ => none
  | .stationRoute j now order =>
    match s.station_pc.get? j with
    | some (StationPc.sleep vehicle0 _) =>
      if ¬ order.Perm s.register_queues then none else
      let idx := getShortestQueueRegister order
      let vehicle := { vehicle0 with time_start_in_register_queue := now }
      match chanSend s.register_queues idx s.num_cars vehicle with
      | none => none
      | some qs =>
        some { s with register_queues := qs, mu := none,
                      station_pc := s.station_pc.set j StationPc.recv }
    | _ => none
  | .registerRecv j =>
    match s.registers.get? j, s.register_pc.get? j with
    | some _, some RegisterPc.recv =>
      match chanRecv s.register_queues (j : Int) with
      | none => none
      | some (vehicle, qs) =>
        some { s with register_queues := qs,
                      register_pc := s.register_pc.set j (RegisterPc.lock vehicle) }
    | _, _ => none
  | .registerHandle j r now =>
    match s.registers.get? j, s.register_pc.get? j, s.mu with
    | some register, some (RegisterPc.lock vehicle), none =>
      let d := handleDuration fl register r
      match statsUpdate s.stats "register" d (now - vehicle.time_start_in_register_queue) with
      | none => none
      | some stats =>
        some { s with mu := some (Worker.register j), stats := stats,
                      register_pc := s.register_pc.set j (RegisterPc.sleep vehicle d) }
    | _, _, _ => none
  | .registerUnlock j =>
    match s.register_pc.get? j with
    | some (RegisterPc.sleep vehicle _) =>
      some { s with mu := none, register_pc := s.register_pc.set j (RegisterPc.done vehicle) }
    | _ => none
  | .registerDone j =>
    match s.register_pc.get? j with
    | some (RegisterPc.done vehicle) =>
      if s.wg - 1 < 0 then none else
      some { s with wg := s.wg - 1, register_pc := s.register_pc.set j RegisterPc.recv,
                    exited := s.exited ++ [vehicle] }
    | _ => none

/-- Running a list of events from a state. -/
def run (fl : ℚ → ℚ) : State → List Event → Option State
  | s, [] => some s
  | s, e :: es =>
    match step fl s e with
    | none => none
    | some s' => run fl s' es

/-- The states the simulation of `config` can reach. -/
inductive Reachable (fl : ℚ → ℚ) (config : Config) : State → Prop where
  | init {s : State} : initState config = some s → Reachable fl config s
  | step {s s' : State} (e : Event) : Reachable fl config s → step fl s e = some s' →
      Reachable fl config s'

/-! ### Observations on a state -/

/-- The field `stats[key].total_car` (`0` for an absent key). -/
def total_car (s : State) (key : String) : Int :=
  match mapGet s.stats key with
  | some st => st.total_car
  | none => 0

/-- The number of vehicles satisfying `p` that sit in the channels of `m`. -/
def queued {K : Type} (p : Vehicle → Bool) (m : List (K × List Vehicle)) : Nat :=
  (m.map fun e => e.2.countP p).sum

/-- The vehicle a station worker holds before it has updated the statistics. -/
def StationPc.unserved : StationPc → Option Vehicle
  | .lock v => some v
  | _ => none

/-- Whether a station worker is inside its simulated service delay. -/
def StationPc.inDelay : StationPc → Bool
  | .sleep _ _ => true
  | _ => false

/-- Whether a register worker holds a vehicle. -/
def RegisterPc.busy : RegisterPc → Bool
  | .recv => false
  | _ => true

/-- Whether a register worker has updated the statistics for a vehicle whose `wg.Done()` is
still to come. -/
def RegisterPc.counted : RegisterPc → Bool
  | .sleep _ _ => true
  | .done _ => true
  | _ => false

/-- Whether a register worker is inside its simulated handle delay. -/
def RegisterPc.inDelay : RegisterPc → Bool
  | .sleep _ _ => true
  | _ => false

/-- Counts `1` for a vehicle that satisfies `p`. -/
def weight (p : Vehicle → Bool) : Option Vehicle → Nat
  | some v => if p v then 1 else 0
  | none => 0

/-- Counts `1` for `true`. -/
def one (b : Bool) : Nat := if b then 1 else 0

/-- The number of vehicles satisfying `p` that station workers hold in front of `mu.Lock()`. -/
def stUnserved (p : Vehicle → Bool) (pcs : List StationPc) : Nat :=
  (pcs.map fun pc => weight p pc.unserved).sum

/-- The number of station workers inside their service delay. -/
def stSleeping (pcs : List StationPc) : Nat := (pcs.map fun pc => one pc.inDelay).sum

/-- The number of register workers that hold a vehicle. -/
def regBusy (pcs : List RegisterPc) : Nat := (pcs.map fun pc => one pc.busy).sum

/-- The number of register workers between their statistics update and their `wg.Done()`. -/
def regCounted (pcs : List RegisterPc) : Nat := (pcs.map fun pc => one pc.counted).sum

/-- The number of register workers inside their handle delay. -/
def regSleeping (pcs : List RegisterPc) : Nat := (pcs.map fun pc => one pc.inDelay).sum

/-- The vehicle predicate "has fuel `c`". -/
def hasFuel (c : String) (v : Vehicle) : Bool := decide (v.fuel.name = c)

/-- Every generated vehicle has been served by a station worker: the generator has finished,
the station queues are empty and no station worker holds a vehicle it has not yet counted. -/
def allServed (s : State) : Prop :=
  (s.i : Int) = s.num_cars ∧ (∀ e ∈ s.station_queues, e.2 = []) ∧
    ∀ pc ∈ s.station_pc, pc.unserved = none

/-- No register worker stands between its statistics update and its `wg.Done()`. -/
def registersBetweenIterations (s : State) : Prop :=
  ∀ pc ∈ s.register_pc, pc.counted = false

/-- The facts that hold in every reachable state. -/
structure Inv (s : State) : Prop where
  created_fuel : ∀ v ∈ s.created, v.fuel.name ∈ getSupportedFuels
  created_len : s.created.length = s.i
  i_le : (s.i : Int) ≤ s.num_cars
  station_side : ∀ p : Vehicle → Bool,
    s.served.countP p + queued p s.station_queues + stUnserved p s.station_pc
      = s.created.countP p
  register_side :
    s.exited.length + regBusy s.register_pc + queued (fun _ => true) s.register_queues
      + stSleeping s.station_pc = s.served.length
  served_stats : ∀ c : String, c ≠ "register" →
    total_car s c = (s.served.countP (hasFuel c) : Int)
  register_stats : total_car s "register" = (s.exited.length : Int) + regCounted s.register_pc
  wg_eq : s.wg = toInt32 s.num_cars - s.exited.length
  wg_nonneg : 0 ≤ s.wg
  pending_ok : ∀ v, s.pending = some v →
    v.fuel.name ∈ getSupportedFuels ∧ (s.i : Int) < s.num_cars
  lock_station : ∀ j pc, s.station_pc.get? j = some pc → pc.inDelay = true →
    s.mu = some (Worker.station j)
  lock_register : ∀ j pc, s.register_pc.get? j = some pc → pc.inDelay = true →
    s.mu = some (Worker.register j)

/-! ## Concrete runs -/

/-- Running a script: each entry picks its event from the current state (so that a visiting
order can be the current content of a map). -/
def runScript (fl : ℚ → ℚ) : Option State → List (State → Event) → Option State
  | o, [] => o
  | o, e :: es => runScript fl (o.bind fun s => step fl s (e s)) es

/-- A state without resources, the value of `stateOf none`. -/
def emptyState : State :=
  { stations := [], registers := [], num_cars := 0, stats := [], wg := 0, mu := none,
    station_queues := [], register_queues := [], i := 0, pending := none, station_pc := [],
    register_pc := [],
    created := [], served := [], exited := [] }

/-- The state an optional state holds. -/
def stateOf (o : Option State) : State := o.getD emptyState

/-- A configuration with one station per category, one register and two vehicles. -/
def demoConfig : Config :=
  [ ("gas", { num := 1, serve_time_min := 2 * time_mode, serve_time_max := 5 * time_mode }),
    ("diesel", { num := 1, serve_time_min := 3 * time_mode, serve_time_max := 6 * time_mode }),
    ("lpg", { num := 1, serve_time_min := 4 * time_mode, serve_time_max := 7 * time_mode }),
    ("electric", { num := 1, serve_time_min := 5 * time_mode, serve_time_max := 10 * time_mode }),
    ("register", { num := 1, serve_time_min := 1 * time_mode, serve_time_max := 3 * time_mode }),
    ("car", { num := 2, serve_time_min := 1 * time_mode, serve_time_max := 2 * time_mode }) ]

/-- The source configuration with the gas stations removed and two vehicles. -/
def noGasConfig : Config :=
  [ ("gas", { num := 0, serve_time_min := 2 * time_mode, serve_time_max := 5 * time_mode }),
    ("diesel", { num := 2, serve_time_min := 3 * time_mode, serve_time_max := 6 * time_mode }),
    ("lpg", { num := 1, serve_time_min := 4 * time_mode, serve_time_max := 7 * time_mode }),
    ("electric", { num := 1, serve_time_min := 5 * time_mode, serve_time_max := 10 * time_mode }),
    ("register", { num := 2, serve_time_min := 1 * time_mode, serve_time_max := 3 * time_mode }),
    ("car", { num := 2, serve_time_min := 1 * time_mode, serve_time_max := 2 * time_mode }) ]

/-- A diesel vehicle arrives, then a gas vehicle; both are taken by their station worker and
counted, the diesel vehicle is also routed to the register. -/
def servedScript : List (State → Event) :=
  [ fun _ => .create 1 0,
    fun s => .enqueue s.station_queues,
    fun _ => .create 0 1000000,
    fun s => .enqueue s.station_queues,
    fun _ => .stationRecv 1,
    fun _ => .stationServe 1 0 2000000,
    fun _ => .stationRecv 0,
    fun s => .stationRoute 1 5000000 s.register_queues,
    fun _ => .stationServe 0 (1 / 2) 5000000 ]

/-- A diesel vehicle arrives and its station worker starts serving it; then the generator
builds a gas vehicle. -/
def sleepScript : List (State → Event) :=
  [ fun _ => .create 1 0,
    fun s => .enqueue s.station_queues,
    fun _ => .stationRecv 0,
    fun _ => .stationServe 0 0 2000000,
    fun _ => .create 0 3000000 ]

/-- A diesel vehicle arrives, is served and routed to register 0, whose worker updates the
statistics and sleeps; meanwhile a gas vehicle arrives. -/
def payingScript : List (State → Event) :=
  [ fun _ => .create 1 0,
    fun s => .enqueue s.station_queues,
    fun _ => .stationRecv 2,
    fun _ => .stationServe 2 0 2000000,
    fun s => .stationRoute 2 5000000 s.register_queues,
    fun _ => .registerRecv 0,
    fun _ => .registerHandle 0 0 5000000,
    fun _ => .create 0 5000000,
    fun s => .enqueue s.station_queues ]

/-- A diesel vehicle arrives, is served, routed and handled; the register worker has unlocked
and stands in front of `wg.Done()`. -/
def unlockedScript : List (State → Event) :=
  [ fun _ => .create 1 0,
    fun s => .enqueue s.station_queues,
    fun _ => .stationRecv 1,
    fun _ => .stationServe 1 0 2000000,
    fun s => .stationRoute 1 5000000 s.register_queues,
    fun _ => .registerRecv 0,
    fun _ => .registerHandle 0 0 5000000,
    fun _ => .registerUnlock 0 ]

/-- The state after `servedScript`. -/
def demoServed : State := stateOf (runScript (fun q => q) (initState demoConfig) servedScript)

/-- The state after `sleepScript` in `noGasConfig`. -/
def demoNoGas : State := stateOf (runScript (fun q => q) (initState noGasConfig) sleepScript)

/-- The state after `payingScript` in the source configuration. -/
def demoPaying : State := stateOf (runScript (fun q => q) (initState config) payingScript)

/-- The state after `unlockedScript`. -/
def demoUnlocked : State :=
  stateOf (runScript (fun q => q) (initState demoConfig) unlockedScript)

/-- The source configuration with `2 ^ 32` vehicles. -/
def wrapConfig : Config :=
  [ ("gas", { num := 2, serve_time_min := 2 * time_mode, serve_time_max := 5 * time_mode }),
    ("diesel", { num := 2, serve_time_min := 3 * time_mode, serve_time_max := 6 * time_mode }),
    ("lpg", { num := 1, serve_time_min := 4 * time_mode, serve_time_max := 7 * time_mode }),
    ("electric", { num := 1, serve_time_min := 5 * time_mode, serve_time_max := 10 * time_mode }),
    ("register", { num := 2, serve_time_min := 1 * time_mode, serve_time_max := 3 * time_mode }),
    ("car", { num := 4294967296, serve_time_min := 1 * time_mode,
              serve_time_max := 2 * time_mode }) ]

/-- A vehicle of the given fuel. -/
def demoVehicle (id : Int) (name : String) : Vehicle :=
  { id := id, fuel := { name := name }, time_start_in_register_queue := 0,
    time_start_in_station_queue := 0 }

/-- The entry of `config` for gas. -/
def gasEntry : ConfigEntry :=
  { num := 2, serve_time_min := 2 * time_mode, serve_time_max := 5 * time_mode }

/-- The entry of `config` for diesel. -/
def dieselEntry : ConfigEntry :=
  { num := 2, serve_time_min := 3 * time_mode, serve_time_max := 6 * time_mode }

/-- A station pool: two gas stations with two and one waiting vehicles, one idle diesel
station. -/
def demoPool : List (Station × List Vehicle) :=
  [ (mkStation "gas" gasEntry 0, [demoVehicle 1 "gas", demoVehicle 3 "gas"]),
    (mkStation "gas" gasEntry 1, [demoVehicle 2 "gas"]),
    (mkStation "diesel" dieselEntry 0, []) ]

/-- A register pool: register 0 with two waiting vehicles, register 1 with one. -/
def demoRegisters : List (Int × List Vehicle) :=
  [ (0, [demoVehicle 1 "gas", demoVehicle 2 "diesel"]), (1, [demoVehicle 3 "lpg"]) ]

/-- A station whose minimum service time is two and a half units of `time_mode`. -/
def halfUnitStation : Station :=
  { fuel := { name := "gas" }, id := "gas_1", serve_time_min := 2500000,
    serve_time_max := 5000000, numVehicle := 0 }

/-- A register with the handle times of `config`. -/
def demoRegister : Register :=
  { handle_time_min := 1 * time_mode, handle_time_max := 3 * time_mode }

/-- A station pool: two idle gas stations and one idle diesel station. -/
def idlePool : List (Station × List Vehicle) :=
  [ (mkStation "gas" gasEntry 0, []), (mkStation "diesel" dieselEntry 0, []),
    (mkStation "gas" gasEntry 1, []) ]

/-- The pool `idlePool` after the first gas vehicle has been sent to the station chosen for
it. -/
def idlePoolAfter : List (Station × List Vehicle) :=
  (chanSend idlePool (getShortestQueueStation idlePool { name := "gas" }) 2
    (demoVehicle 1 "gas")).getD []

/-- In the source configuration a diesel vehicle and a gas vehicle arrive, the workers of
`diesel_1` (the third station) and `gas_1` (the first station) receive them, and the worker of
`diesel_1` starts serving. -/
def dieselScript : List (State → Event) :=
  [ fun _ => .create 1 0,
    fun s => .enqueue s.station_queues,
    fun _ => .create 0 1000000,
    fun s => .enqueue s.station_queues,
    fun _ => .stationRecv 2,
    fun _ => .stationRecv 0,
    fun _ => .stationServe 2 0 2000000 ]

/-- The state after `dieselScript` in the source configuration. -/
def demoSleeping : State := stateOf (runScript (fun q => q) (initState config) dieselScript)

/-! ## Theorems -/

/-! ## Router lemmas -/

/-- What the station loop has established after visiting `l`, started from `acc`. -/
theorem stationLoop_spec (car_fuel : Fuel) (l : List (Station × List Vehicle)) :
    ∀ acc : Int × Station,
      let r := l.foldl (stationLoopBody car_fuel) acc
      r.1 ≤ acc.1 ∧
      (∀ e ∈ l, e.1.fuel.name = car_fuel.name → r.1 ≤ (e.2.length : Int)) ∧
      (r = acc ∨ ∃ e ∈ l, e.1.fuel.name = car_fuel.name ∧ r = ((e.2.length : Int), e.1)) := by
  induction l with
  | nil => intro acc; simp
  | cons x xs ih =>
    intro acc
    simp only [List.foldl_cons]
    obtain ⟨h1, h2, h3⟩ := ih (stationLoopBody car_fuel acc x)
    have hstep : (stationLoopBody car_fuel acc x).1 ≤ acc.1 := by
      unfold stationLoopBody
      split_ifs with hf hl <;> first | exact le_refl _ | exact le_of_lt hl
    have hx : x.1.fuel.name = car_fuel.name →
        (stationLoopBody car_fuel acc x).1 ≤ (x.2.length : Int) := by
      intro hf; unfold stationLoopBody; rw [if_pos hf]
      split_ifs with hl <;> first | exact le_refl _ | exact not_lt.1 hl
    refine ⟨le_trans h1 hstep, ?_, ?_⟩
    · intro e he hf
      rcases List.mem_cons.1 he with rfl | he
      · exact le_trans h1 (hx hf)
      · exact h2 e he hf
    · rcases h3 with h3 | ⟨e, he, hf, hr⟩
      · rw [h3]
        unfold stationLoopBody
        split_ifs with hf hl
        · exact Or.inr ⟨x, List.mem_cons_self _ _, hf, rfl⟩
        · exact Or.inl rfl
        · exact Or.inl rfl
      · exact Or.inr ⟨e, List.mem_cons_of_mem _ he, hf, hr⟩

/-- What the register loop has established after visiting `l`, started from `acc`. -/
theorem registerLoop_spec (l : List (Int × List Vehicle)) :
    ∀ acc : Int × Int,
      let r := l.foldl registerLoopBody acc
      r.1 ≤ acc.1 ∧
      (∀ e ∈ l, r.1 ≤ (e.2.length : Int)) ∧
      (r = acc ∨ ∃ e ∈ l, r = ((e.2.length : Int), e.1)) := by
  induction l with
  | nil => intro acc; simp
  | cons x xs ih =>
    intro acc
    simp only [List.foldl_cons]
    obtain ⟨h1, h2, h3⟩ := ih (registerLoopBody acc x)
    have hstep : (registerLoopBody acc x).1 ≤ acc.1 := by
      unfold registerLoopBody
      split_ifs with hl <;> first | exact le_refl _ | exact le_of_lt hl
    have hx : (registerLoopBody acc x).1 ≤ (x.2.length : Int) := by
      unfold registerLoopBody
      split_ifs with hl <;> first | exact le_refl _ | exact not_lt.1 hl
    refine ⟨le_trans h1 hstep, ?_, ?_⟩
    · intro e he
      rcases List.mem_cons.1 he with rfl | he
      · exact le_trans h1 hx
      · exact h2 e he
    · rcases h3 with h3 | ⟨e, he, hr⟩
      · rw [h3]
        unfold registerLoopBody
        split_ifs with hl
        · exact Or.inr ⟨x, List.mem_cons_self _ _, rfl⟩
        · exact Or.inl rfl
      · exact Or.inr ⟨e, List.mem_cons_of_mem _ he, hr⟩

/-- The station router returns an entry of the visited list that matches the fuel and has a
minimal queue, provided some entry matches and every matching queue is shorter than
`maxInt64`. -/
theorem getShortestQueueStation_spec (l : List (Station × List Vehicle)) (car_fuel : Fuel)
    (hlen : ∀ e ∈ l, e.1.fuel.name = car_fuel.name → (e.2.length : Int) < maxInt64)
    (hex : ∃ e ∈ l, e.1.fuel.name = car_fuel.name) :
    ∃ q, (getShortestQueueStation l car_fuel, q) ∈ l ∧
      (getShortestQueueStation l car_fuel).fuel.name = car_fuel.name ∧
      ∀ e ∈ l, e.1.fuel.name = car_fuel.name → q.length ≤ e.2.length := by
  obtain ⟨_, h2, h3⟩ := stationLoop_spec car_fuel l (maxInt64, zeroStation)
  obtain ⟨e0, he0, hf0⟩ := hex
  rcases h3 with h3 | ⟨e, he, hf, hr⟩
  · have := h2 e0 he0 hf0
    rw [h3] at this
    have := hlen e0 he0 hf0
    simp only at *
    omega
  · refine ⟨e.2, ?_, ?_, ?_⟩
    · unfold getShortestQueueStation; rw [hr]; exact he
    · unfold getShortestQueueStation; rw [hr]; exact hf
    · intro e' he' hf'
      have := h2 e' he' hf'
      rw [hr] at this
      simp only at this
      exact_mod_cast this

/-- The register router returns a key of the visited list with a minimal queue, provided the
list is not empty and every queue is shorter than `maxInt64`. -/
theorem getShortestQueueRegister_spec (l : List (Int × List Vehicle))
    (hlen : ∀ e ∈ l, (e.2.length : Int) < maxInt64) (hne : l ≠ []) :
    ∃ q, (getShortestQueueRegister l, q) ∈ l ∧ ∀ e ∈ l, q.length ≤ e.2.length := by
  obtain ⟨_, h2, h3⟩ := registerLoop_spec l (maxInt64, -1)
  obtain ⟨e0, he0⟩ := List.exists_mem_of_ne_nil l hne
  rcases h3 with h3 | ⟨e, he, hr⟩
  · have := h2 e0 he0
    rw [h3] at this
    have := hlen e0 he0
    simp only at *
    omega
  · refine ⟨e.2, ?_, ?_⟩
    · unfold getShortestQueueRegister; rw [hr]; exact he
    · intro e' he'
      have := h2 e' he'
      rw [hr] at this
      simp only at this
      exact_mod_cast this

/-! ## Statistics lemmas -/

theorem updateStats_max (st : Stats) (d w : Int) :
    (updateStats st d w).max_queue_time = max st.max_queue_time w := by
  unfold updateStats
  by_cases h : w > st.max_queue_time
  · simp [h, max_eq_right (le_of_lt h)]
  · simp [h, max_eq_left (not_lt.1 h)]

theorem updateStats_total_car (st : Stats) (d w : Int) :
    (updateStats st d w).total_car = st.total_car + 1 := by
  unfold updateStats
  by_cases h : w > st.max_queue_time <;> simp [h]

/-- The running maximum after a fold dominates the start value and every observed wait, and
is the start value or one of the waits. -/
theorem recordAll_max_spec (obs : List (Int × Int)) :
    ∀ st : Stats,
      st.max_queue_time ≤ (recordAll st obs).max_queue_time ∧
      (∀ o ∈ obs, o.2 ≤ (recordAll st obs).max_queue_time) ∧
      ((recordAll st obs).max_queue_time = st.max_queue_time ∨
        ∃ o ∈ obs, (recordAll st obs).max_queue_time = o.2) := by
  induction obs with
  | nil => intro st; simp [recordAll]
  | cons x xs ih =>
    intro st
    obtain ⟨h1, h2, h3⟩ := ih (updateStats st x.1 x.2)
    have hrec : recordAll st (x :: xs) = recordAll (updateStats st x.1 x.2) xs := rfl
    rw [hrec]
    have hm := updateStats_max st x.1 x.2
    refine ⟨?_, ?_, ?_⟩
    · exact le_trans (by rw [hm]; exact le_max_left _ _) h1
    · intro o ho
      rcases List.mem_cons.1 ho with rfl | ho
      · exact le_trans (by rw [hm]; exact le_max_right _ _) h1
      · exact h2 o ho
    · rcases h3 with h3 | ⟨o, ho, h3⟩
      · rw [h3, hm]
        rcases max_choice st.max_queue_time x.2 with h | h
        · exact Or.inl h
        · exact Or.inr ⟨x, List.mem_cons_self _ _, h⟩
      · exact Or.inr ⟨o, List.mem_cons_of_mem _ ho, h3⟩

/-! ## Duration lemmas -/

theorem truncate_of_nonneg (q : ℚ) (hq : 0 ≤ q) : truncate q = ⌊q⌋ := by
  unfold truncate
  rw [Rat.floor_def, Int.tdiv_eq_ediv (Rat.num_nonneg.2 hq) (by exact_mod_cast Nat.zero_le _)]

/-- The rounded affine combination stays between the two integer end points, for a rounding
that is monotone and exact on the integers involved. -/
theorem truncate_between (fl : ℚ → ℚ) (hmono : Monotone fl) (lo hi : Int) (y : ℚ)
    (hlo : 0 ≤ lo) (hflo : fl (lo : ℚ) = lo) (hfhi : fl (hi : ℚ) = hi)
    (h1 : (lo : ℚ) ≤ y) (h2 : y ≤ hi) :
    lo ≤ truncate (fl y) ∧ truncate (fl y) ≤ hi := by
  have a1 : (lo : ℚ) ≤ fl y := by rw [← hflo]; exact hmono h1
  have a2 : fl y ≤ hi := by rw [← hfhi]; exact hmono h2
  have h0 : (0 : ℚ) ≤ fl y := le_trans (by exact_mod_cast hlo) a1
  rw [truncate_of_nonneg _ h0]
  exact ⟨Int.le_floor.2 a1, by exact_mod_cast (Int.floor_le_floor a2).trans_eq (Int.floor_intCast hi)⟩

/-- Bounds on `rnd_serve_time` in units of `time_mode`. -/
theorem rnd_serve_time_bounds (fl : ℚ → ℚ) (hmono : Monotone fl)
    (hexact : ∀ n : Int, 0 ≤ n → n ≤ 2 ^ 24 → fl (n : ℚ) = n)
    (station : Station) (r : ℚ) (hr0 : 0 ≤ r) (hr1 : r < 1)
    (hmin : 0 ≤ station.serve_time_min) (hle : station.serve_time_min ≤ station.serve_time_max)
    (hbig : station.serve_time_max / time_mode ≤ 2 ^ 24) :
    station.serve_time_min / time_mode ≤ rnd_serve_time fl station r ∧
      rnd_serve_time fl station r ≤ station.serve_time_max / time_mode := by
  have htm : (0 : Int) ≤ time_mode := by decide
  have hmax : 0 ≤ station.serve_time_max := le_trans hmin hle
  unfold rnd_serve_time
  rw [Int.tdiv_eq_ediv hmin htm, Int.tdiv_eq_ediv hmax htm]
  set lo := station.serve_time_min / time_mode with hlo_def
  set hi := station.serve_time_max / time_mode with hhi_def
  have hlo : 0 ≤ lo := Int.ediv_nonneg hmin htm
  have hlohi : lo ≤ hi := Int.ediv_le_ediv (by decide) hle
  have e1 := hexact lo hlo (le_trans hlohi hbig)
  have e2 := hexact hi (le_trans hlo hlohi) hbig
  have e3 := hexact (hi - lo) (by omega) (by omega)
  have e0 := hexact 0 (le_refl _) (by norm_num)
  rw [e1, e3]
  have hd : (0 : ℚ) ≤ ((hi - lo : Int) : ℚ) := by exact_mod_cast (by omega : 0 ≤ hi - lo)
  have y0 : (0 : ℚ) ≤ fl (r * ((hi - lo : Int) : ℚ)) := by
    have := hmono (mul_nonneg hr0 hd)
    rw [Int.cast_zero] at e0
    rw [e0] at this; exact this
  have y1 : fl (r * ((hi - lo : Int) : ℚ)) ≤ ((hi - lo : Int) : ℚ) := by
    have := hmono (mul_le_of_le_one_left hd (le_of_lt hr1))
    rw [e3] at this; exact this
  apply truncate_between fl hmono lo hi _ hlo e1 e2
  · linarith
  · have : ((hi - lo : Int) : ℚ) = (hi : ℚ) - lo := by push_cast; ring
    linarith

/-- Bounds on `rnd_handle_time` in units of `time_mode`. -/
theorem rnd_handle_time_bounds (fl : ℚ → ℚ) (hmono : Monotone fl)
    (hexact : ∀ n : Int, 0 ≤ n → n ≤ 2 ^ 24 → fl (n : ℚ) = n)
    (register : Register) (r : ℚ) (hr0 : 0 ≤ r) (hr1 : r < 1)
    (hmin : 0 ≤ register.handle_time_min)
    (hle : register.handle_time_min ≤ register.handle_time_max)
    (hbig : register.handle_time_max / time_mode ≤ 2 ^ 24) :
    register.handle_time_min / time_mode ≤ rnd_handle_time fl register r ∧
      rnd_handle_time fl register r ≤ register.handle_time_max / time_mode := by
  have htm : (0 : Int) ≤ time_mode := by decide
  have hmax : 0 ≤ register.handle_time_max := le_trans hmin hle
  unfold rnd_handle_time
  rw [Int.tdiv_eq_ediv hmin htm, Int.tdiv_eq_ediv hmax htm]
  set lo := register.handle_time_min / time_mode with hlo_def
  set hi := register.handle_time_max / time_mode with hhi_def
  have hlo : 0 ≤ lo := Int.ediv_nonneg hmin htm
  have hlohi : lo ≤ hi := Int.ediv_le_ediv (by decide) hle
  have e1 := hexact lo hlo (le_trans hlohi hbig)
  have e2 := hexact hi (le_trans hlo hlohi) hbig
  have e3 := hexact (hi - lo) (by omega) (by omega)
  have e0 := hexact 0 (le_refl _) (by norm_num)
  have hsub : (hi : ℚ) - lo = ((hi - lo : Int) : ℚ) := by push_cast; ring
  rw [e1, e2, hsub, e3]
  have hd : (0 : ℚ) ≤ ((hi - lo : Int) : ℚ) := by exact_mod_cast (by omega : 0 ≤ hi - lo)
  have y0 : (0 : ℚ) ≤ fl (r * ((hi - lo : Int) : ℚ)) := by
    have := hmono (mul_nonneg hr0 hd)
    rw [Int.cast_zero] at e0
    rw [e0] at this; exact this
  have y1 : fl (r * ((hi - lo : Int) : ℚ)) ≤ ((hi - lo : Int) : ℚ) := by
    have := hmono (mul_le_of_le_one_left hd (le_of_lt hr1))
    rw [e3] at this; exact this
  apply truncate_between fl hmono lo hi _ hlo e1 e2
  · linarith
  · linarith

/-- Multiplying the unit bounds by `time_mode`. -/
theorem unit_bounds_scale (lo hi t mn mx : Int) (hlo : lo = mn / time_mode)
    (hhi : hi = mx / time_mode) (h1 : lo ≤ t) (h2 : t ≤ hi) :
    mn / time_mode * time_mode ≤ t * time_mode ∧ t * time_mode ≤ mx ∧
      (time_mode ∣ mn → mn ≤ t * time_mode) := by
  have htm : (0 : Int) < time_mode := by decide
  have a1 : mn / time_mode * time_mode ≤ t * time_mode :=
    Int.mul_le_mul_of_nonneg_right (hlo ▸ h1) (le_of_lt htm)
  have a2 : t * time_mode ≤ mx / time_mode * time_mode :=
    Int.mul_le_mul_of_nonneg_right (hhi ▸ h2) (le_of_lt htm)
  refine ⟨a1, le_trans a2 (Int.ediv_mul_le mx (ne_of_gt htm)), ?_⟩
  intro hdvd
  rw [Int.ediv_mul_cancel hdvd] at a1
  exact a1

/-! ## Go map lemmas -/

theorem mapGet_mapSet_self {K V : Type} [DecidableEq K] (m : List (K × V)) (k : K) (v : V) :
    mapGet (mapSet m k v) k = some v := by
  induction m with
  | nil => simp [mapSet, mapGet]
  | cons x xs ih =>
    obtain ⟨k', v'⟩ := x
    by_cases h : k' = k
    · simp [mapSet, mapGet, h]
    · simp [mapSet, mapGet, h, ih]

theorem mapGet_mapSet_ne {K V : Type} [DecidableEq K] (m : List (K × V)) (k k' : K) (v : V)
    (hne : k ≠ k') : mapGet (mapSet m k v) k' = mapGet m k' := by
  induction m with
  | nil => simp [mapSet, mapGet, hne]
  | cons x xs ih =>
    obtain ⟨k0, v0⟩ := x
    by_cases h : k0 = k
    · subst h; simp [mapSet, mapGet, hne]
    · by_cases h' : k0 = k'
      · subst h'; simp [mapSet, mapGet, h]
      · simp [mapSet, mapGet, h, h', ih]

theorem mapGet_mem {K V : Type} [DecidableEq K] (m : List (K × V)) (k : K) (v : V)
    (h : mapGet m k = some v) : (k, v) ∈ m := by
  induction m with
  | nil => simp [mapGet] at h
  | cons x xs ih =>
    obtain ⟨k0, v0⟩ := x
    by_cases hk : k0 = k
    · simp [mapGet, hk] at h; subst h; subst hk; exact List.mem_cons_self _ _
    · simp [mapGet, hk] at h; exact List.mem_cons_of_mem _ (ih h)

theorem mapGet_of_mem_nodup {K V : Type} [DecidableEq K] (m : List (K × V)) (k : K) (v : V)
    (hnd : (m.map Prod.fst).Nodup) (h : (k, v) ∈ m) : mapGet m k = some v := by
  induction m with
  | nil => simp at h
  | cons x xs ih =>
    obtain ⟨k0, v0⟩ := x
    simp only [List.map_cons, List.nodup_cons] at hnd
    rcases List.mem_cons.1 h with h | h
    · simp only [Prod.mk.injEq] at h
      obtain ⟨rfl, rfl⟩ := h
      simp [mapGet]
    · have hk : k0 ≠ k := by
        rintro rfl
        exact hnd.1 (List.mem_map.2 ⟨(k0, v), h, rfl⟩)
      simp [mapGet, hk, ih hnd.2 h]

theorem keys_mapSet_of_get {K V : Type} [DecidableEq K] (m : List (K × V)) (k : K) (v v' : V)
    (h : mapGet m k = some v) : (mapSet m k v').map Prod.fst = m.map Prod.fst := by
  induction m with
  | nil => simp [mapGet] at h
  | cons x xs ih =>
    obtain ⟨k0, v0⟩ := x
    by_cases hk : k0 = k
    · simp [mapSet, hk]
    · simp [mapGet, hk] at h
      simp [mapSet, hk, ih h]

theorem keys_mapSet_of_not_mem {K V : Type} [DecidableEq K] (m : List (K × V)) (k : K) (v : V)
    (h : k ∉ m.map Prod.fst) : (mapSet m k v).map Prod.fst = m.map Prod.fst ++ [k] := by
  induction m with
  | nil => simp [mapSet]
  | cons x xs ih =>
    obtain ⟨k0, v0⟩ := x
    simp only [List.map_cons, List.mem_cons, not_or] at h
    simp [mapSet, Ne.symm h.1, ih h.2]

theorem mem_mapSet_of_ne {K V : Type} [DecidableEq K] (m : List (K × V)) (k : K) (v : V)
    (e : K × V) (h : e ∈ m) (hne : e.1 ≠ k) : e ∈ mapSet m k v := by
  induction m with
  | nil => simp at h
  | cons x xs ih =>
    obtain ⟨k0, v0⟩ := x
    by_cases hk : k0 = k
    · simp only [mapSet, hk, if_true, List.mem_cons]
      rcases List.mem_cons.1 h with h | h
      · subst h; exact absurd hk hne
      · exact Or.inr h
    · simp only [mapSet, hk, if_false, List.mem_cons]
      rcases List.mem_cons.1 h with h | h
      · exact Or.inl h
      · exact Or.inr (ih h)

/-! ## Counting lemmas -/

theorem sum_map_set {α : Type} (f : α → Nat) (l : List α) (j : Nat) (a b : α)
    (h : l.get? j = some a) : ((l.set j b).map f).sum + f a = (l.map f).sum + f b := by
  induction l generalizing j with
  | nil => simp at h
  | cons x xs ih =>
    cases j with
    | zero =>
      simp only [List.get?_cons_zero, Option.some.injEq] at h
      subst h
      simp only [List.set_cons_zero, List.map_cons, List.sum_cons]
      omega
    | succ j =>
      simp only [List.get?_cons_succ] at h
      have := ih j h
      simp only [List.set_cons_succ, List.map_cons, List.sum_cons]
      omega

theorem le_sum_map_of_get {α : Type} (f : α → Nat) (l : List α) (j : Nat) (a : α)
    (h : l.get? j = some a) : f a ≤ (l.map f).sum := by
  induction l generalizing j with
  | nil => simp at h
  | cons x xs ih =>
    cases j with
    | zero =>
      simp only [List.get?_cons_zero, Option.some.injEq] at h
      subst h
      simp only [List.map_cons, List.sum_cons]
      omega
    | succ j =>
      simp only [List.get?_cons_succ] at h
      have := ih j h
      simp only [List.map_cons, List.sum_cons]
      omega

theorem queued_mapSet {K : Type} [DecidableEq K] (p : Vehicle → Bool)
    (m : List (K × List Vehicle)) (k : K) (q q' : List Vehicle) (h : mapGet m k = some q) :
    queued p (mapSet m k q') + q.countP p = queued p m + q'.countP p := by
  induction m with
  | nil => simp [mapGet] at h
  | cons x xs ih =>
    obtain ⟨k0, v0⟩ := x
    by_cases hk : k0 = k
    · simp only [mapGet, hk, if_true, Option.some.injEq] at h
      subst h
      simp only [queued, mapSet, hk, if_true, List.map_cons, List.sum_cons]
      omega
    · simp only [mapGet, hk, if_false] at h
      have := ih h
      simp only [queued, mapSet, hk, if_false, List.map_cons, List.sum_cons] at this ⊢
      omega

theorem queued_eq_zero {K : Type} (p : Vehicle → Bool) (m : List (K × List Vehicle))
    (h : ∀ e ∈ m, e.2 = []) : queued p m = 0 := by
  induction m with
  | nil => rfl
  | cons x xs ih =>
    have hx := h x (List.mem_cons_self _ _)
    have := ih (fun e he => h e (List.mem_cons_of_mem _ he))
    simp only [queued, List.map_cons, List.sum_cons] at this ⊢
    rw [hx, this]; rfl

theorem sum_map_eq_zero {α : Type} (f : α → Nat) (l : List α) (h : ∀ a ∈ l, f a = 0) :
    (l.map f).sum = 0 := by
  induction l with
  | nil => rfl
  | cons x xs ih =>
    simp only [List.map_cons, List.sum_cons]
    rw [h x (List.mem_cons_self _ _), ih (fun a ha => h a (List.mem_cons_of_mem _ ha))]

/-! ## Station identities -/

theorem decodeDigits_append_single (l : List Char) (c : Char) :
    decodeDigits (l ++ [c]) = decodeDigits l * 10 + (c.toNat - 48) := by
  simp [decodeDigits, List.foldl_append]

theorem digitChar_value (k : Nat) (hk : k < 10) : (Nat.digitChar k).toNat - 48 = k := by
  interval_cases k <;> rfl

theorem toDigitsCore_append (f : Nat) : ∀ (n : Nat) (ds : List Char),
    Nat.toDigitsCore 10 f n ds = Nat.toDigitsCore 10 f n [] ++ ds := by
  induction f with
  | zero => intro n ds; simp [Nat.toDigitsCore]
  | succ f ih =>
    intro n ds
    simp only [Nat.toDigitsCore]
    split_ifs with h
    · simp
    · rw [ih (n / 10) (Nat.digitChar (n % 10) :: ds), ih (n / 10) [Nat.digitChar (n % 10)]]
      simp

theorem decodeDigits_toDigitsCore (f : Nat) : ∀ n : Nat, n < f →
    decodeDigits (Nat.toDigitsCore 10 f n []) = n := by
  induction f with
  | zero => intro n h; omega
  | succ f ih =>
    intro n hn
    simp only [Nat.toDigitsCore]
    split_ifs with h
    · have hlt : n < 10 := by omega
      have : n % 10 = n := Nat.mod_eq_of_lt hlt
      rw [this]
      simp [decodeDigits, digitChar_value n hlt]
    · rw [toDigitsCore_append, decodeDigits_append_single, ih (n / 10) (by omega),
        digitChar_value _ (Nat.mod_lt _ (by decide))]
      omega

theorem Itoa_injective (m n : Nat) (h : Itoa m = Itoa n) : m = n := by
  unfold Itoa Nat.repr Nat.toDigits at h
  have h' : Nat.toDigitsCore 10 (m + 1) m [] = Nat.toDigitsCore 10 (n + 1) n [] :=
    congrArg String.data h
  have := congrArg decodeDigits h'
  rwa [decodeDigits_toDigitsCore _ _ (Nat.lt_succ_self _),
    decodeDigits_toDigitsCore _ _ (Nat.lt_succ_self _)] at this

/-- The first character of a supported fuel name determines the name, so an id determines the
fuel name it starts with. -/
theorem id_start_injective (a b x y : String) (ha : a ∈ getSupportedFuels)
    (hb : b ∈ getSupportedFuels) (h : a ++ "_" ++ x = b ++ "_" ++ y) : a = b := by
  have hd := congrArg (fun s => s.data.head?) h
  simp only [String.data_append] at hd
  simp only [getSupportedFuels, List.mem_cons, List.mem_singleton, List.not_mem_nil, or_false] at ha hb
  rcases ha with rfl | rfl | rfl | rfl <;> rcases hb with rfl | rfl | rfl | rfl <;>
    first | rfl | (exfalso; revert hd; simp; try decide)

theorem id_injective (a b : String) (m n : Nat) (ha : a ∈ getSupportedFuels)
    (hb : b ∈ getSupportedFuels) (h : a ++ "_" ++ Itoa m = b ++ "_" ++ Itoa n) :
    a = b ∧ m = n := by
  have hab := id_start_injective a b _ _ ha hb h
  subst hab
  refine ⟨rfl, Itoa_injective m n ?_⟩
  have hd := congrArg String.data h
  simp only [String.data_append, List.append_assoc, List.append_cancel_left_eq] at hd
  exact String.ext hd

/-! ## Resource pool lemmas -/

theorem mem_stationsOfEntry (e : String × ConfigEntry) (s : Station) :
    s ∈ stationsOfEntry e ↔
      e.1 ∈ getSupportedFuels ∧ ∃ i : Nat, (i : Int) < e.2.num ∧ s = mkStation e.1 e.2 i := by
  unfold stationsOfEntry
  split_ifs with h
  · simp only [List.mem_map, List.mem_range, h, true_and]
    constructor
    · rintro ⟨i, hi, rfl⟩
      exact ⟨i, by omega, rfl⟩
    · rintro ⟨i, hi, rfl⟩
      exact ⟨i, by omega, rfl⟩
  · simp [h]

theorem mkStation_id_injective (e : String × ConfigEntry) (he : e.1 ∈ getSupportedFuels) :
    Function.Injective fun i => (mkStation e.1 e.2 i).id := by
  intro i j hij
  have := (id_injective e.1 e.1 (i + 1) (j + 1) he he hij).2
  omega

theorem stationsOfEntry_ids_nodup (e : String × ConfigEntry) :
    ((stationsOfEntry e).map Station.id).Nodup := by
  unfold stationsOfEntry
  split_ifs with h
  · rw [List.map_map]
    exact (List.nodup_range _).map (mkStation_id_injective e h)
  · simp

theorem stations_ids_nodup (config : Config) (hkeys : (config.map Prod.fst).Nodup) :
    (((config.map stationsOfEntry).flatten).map Station.id).Nodup := by
  rw [List.map_flatten, List.map_map, List.nodup_flatten]
  constructor
  · intro l hl
    obtain ⟨e, _, rfl⟩ := List.mem_map.1 hl
    exact stationsOfEntry_ids_nodup e
  · rw [List.pairwise_map]
    have hp : config.Pairwise (fun a b => a.1 ≠ b.1) := by
      have := hkeys
      unfold List.Nodup at this
      rwa [List.pairwise_map] at this
    refine hp.imp ?_
    intro a b hab
    simp only [Function.comp, List.disjoint_left, List.mem_map]
    rintro x ⟨s, hs, rfl⟩ ⟨t, ht, hst⟩
    obtain ⟨ha, i, _, rfl⟩ := (mem_stationsOfEntry a s).1 hs
    obtain ⟨hb, j, _, rfl⟩ := (mem_stationsOfEntry b t).1 ht
    exact hab (id_injective b.1 a.1 (j + 1) (i + 1) hb ha hst).1.symm

theorem keys_foldl_mapSet {K : Type} [DecidableEq K] (l : List K) :
    ∀ m : List (K × List Vehicle), (m.map Prod.fst ++ l).Nodup →
      (l.foldl (fun m k => mapSet m k []) m).map Prod.fst = m.map Prod.fst ++ l := by
  induction l with
  | nil => intro m _; simp
  | cons x xs ih =>
    intro m hnd
    have hx : x ∉ m.map Prod.fst := by
      intro hmem
      have := List.nodup_append.1 hnd
      exact this.2.2 hmem (List.mem_cons_self _ _)
    simp only [List.foldl_cons]
    rw [ih (mapSet m x []) (by rw [keys_mapSet_of_not_mem m x [] hx]; simpa using hnd),
      keys_mapSet_of_not_mem m x [] hx]
    simp

theorem values_foldl_mapSet {K : Type} [DecidableEq K] (l : List K) :
    ∀ m : List (K × List Vehicle), (∀ e ∈ m, e.2 = []) →
      ∀ e ∈ l.foldl (fun m k => mapSet m k []) m, e.2 = [] := by
  induction l with
  | nil => intro m h; simpa using h
  | cons x xs ih =>
    intro m h
    simp only [List.foldl_cons]
    apply ih
    intro e he
    clear ih
    induction m with
    | nil => simp [mapSet] at he; rw [he]
    | cons y ys ihm =>
      obtain ⟨k0, v0⟩ := y
      by_cases hk : k0 = x
      · simp only [mapSet, hk, if_true, List.mem_cons] at he
        rcases he with he | he
        · rw [he]
        · exact h e (List.mem_cons_of_mem _ he)
      · simp only [mapSet, hk, if_false, List.mem_cons] at he
        rcases he with he | he
        · rw [he]; exact h _ (List.mem_cons_self _ _)
        · exact ihm (fun e he => h e (List.mem_cons_of_mem _ he)) he

theorem mapGet_of_mem_keys {K V : Type} [DecidableEq K] (m : List (K × V)) (k : K)
    (h : k ∈ m.map Prod.fst) : ∃ v, mapGet m k = some v := by
  induction m with
  | nil => simp at h
  | cons y ys ih =>
    obtain ⟨k0, v0⟩ := y
    by_cases hk : k0 = k
    · exact ⟨v0, by simp [mapGet, hk]⟩
    · simp only [List.map_cons, List.mem_cons] at h
      rcases h with h | h
      · exact absurd h.symm hk
      · obtain ⟨v, hv⟩ := ih h
        exact ⟨v, by simp [mapGet, hk, hv]⟩

theorem keys_foldl_mapSet_subset {K : Type} [DecidableEq K] (l : List K) :
    ∀ (m : List (K × List Vehicle)) (k : K),
      k ∈ (l.foldl (fun m k => mapSet m k []) m).map Prod.fst → k ∈ m.map Prod.fst ∨ k ∈ l := by
  induction l with
  | nil => intro m k h; exact Or.inl (by simpa using h)
  | cons x xs ih =>
    intro m k h
    simp only [List.foldl_cons] at h
    rcases ih _ k h with h | h
    · by_cases hx : x ∈ m.map Prod.fst
      · obtain ⟨v, hv⟩ := mapGet_of_mem_keys m x hx
        rw [keys_mapSet_of_get m x v [] hv] at h
        exact Or.inl h
      · rw [keys_mapSet_of_not_mem m x [] hx] at h
        rcases List.mem_append.1 h with h | h
        · exact Or.inl h
        · simp only [List.mem_singleton] at h
          subst h
          exact Or.inr (List.mem_cons_self _ _)
    · exact Or.inr (List.mem_cons_of_mem _ h)

theorem mkStationQueues_keys (stations : List Station) (h : stations.Nodup) :
    (mkStationQueues stations).map Prod.fst = stations := by
  unfold mkStationQueues
  rw [keys_foldl_mapSet stations [] (by simpa using h)]
  simp

theorem mkStationQueues_keys_subset (stations : List Station) (k : Station)
    (h : k ∈ (mkStationQueues stations).map Prod.fst) : k ∈ stations := by
  rcases keys_foldl_mapSet_subset stations [] k h with h | h
  · simp at h
  · exact h

/-! ## Invariant of the simulation -/

theorem total_car_initStats (s : State) (c : String) (h : s.stats = initStats) :
    total_car s c = 0 := by
  unfold total_car
  rw [h]
  simp only [initStats, mapGet]
  split_ifs <;> rfl

theorem mkRegisterQueues_empty (registers : List Register) :
    ∀ e ∈ mkRegisterQueues registers, e.2 = [] :=
  values_foldl_mapSet _ [] (by simp)

theorem mkStationQueues_empty (stations : List Station) :
    ∀ e ∈ mkStationQueues stations, e.2 = [] :=
  values_foldl_mapSet _ [] (by simp)

theorem initState_fields (config : Config) (s : State) (h : initState config = some s) :
    ∃ car stations registers, mapGet config "car" = some car ∧ 0 ≤ car.num ∧
      0 ≤ toInt32 car.num ∧
      initGasStation config = some (stations, registers) ∧ registers ≠ [] ∧
      s = { stations := stations, registers := registers, num_cars := car.num,
            stats := initStats, wg := toInt32 car.num, mu := none,
            station_queues := mkStationQueues stations,
            register_queues := mkRegisterQueues registers, i := 0, pending := none,
            station_pc := stations.map fun _ => StationPc.recv,
            register_pc := registers.map fun _ => RegisterPc.recv,
            created := [], served := [], exited := [] } := by
  unfold initState at h
  split at h
  · simp at h
  · rename_i car hcar
    by_cases hneg : toInt32 car.num < 0
    · simp [hneg] at h
    · rw [if_neg hneg] at h
      split at h
      · simp at h
      · rename_i stations registers hinit
        split_ifs at h with hreg hnum
        simp only [Option.some.injEq] at h
        exact ⟨car, stations, registers, hcar, by omega, by omega, hinit, hreg, h.symm⟩

theorem inv_init (config : Config) (s : State) (h : initState config = some s) : Inv s := by
  obtain ⟨car, stations, registers, _, hnum, hwg, _, _, rfl⟩ := initState_fields config s h
  refine ⟨by simp, rfl, by simpa using hnum, ?_, ?_, ?_, ?_, by simp, hwg, by simp, ?_, ?_⟩
  · intro p
    simp [queued_eq_zero p _ (mkStationQueues_empty stations), stUnserved, weight,
      StationPc.unserved]
  · simp [queued_eq_zero _ _ (mkRegisterQueues_empty registers), regBusy, stSleeping, one,
      RegisterPc.busy, StationPc.inDelay]
  · intro c _
    rw [total_car_initStats _ c rfl]; simp
  · rw [total_car_initStats _ _ rfl]; simp [regCounted, one, RegisterPc.counted]
  · intro j pc hj hd
    simp only [List.get?_eq_getElem?, List.getElem?_map] at hj
    cases hs : stations[j]? <;> simp [hs] at hj
    subst hj; simp [StationPc.inDelay] at hd
  · intro j pc hj hd
    simp only [List.get?_eq_getElem?, List.getElem?_map] at hj
    cases hs : registers[j]? <;> simp [hs] at hj
    subst hj; simp [RegisterPc.inDelay] at hd

theorem chanSend_some {K : Type} [DecidableEq K] (m : List (K × List Vehicle)) (k : K)
    (cap : Int) (v : Vehicle) (m' : List (K × List Vehicle)) (h : chanSend m k cap v = some m') :
    ∃ q, mapGet m k = some q ∧ m' = mapSet m k (q ++ [v]) := by
  unfold chanSend at h
  split at h
  · simp at h
  · rename_i q hq
    split_ifs at h
    simp only [Option.some.injEq] at h
    exact ⟨q, hq, h.symm⟩

theorem chanRecv_some {K : Type} [DecidableEq K] (m : List (K × List Vehicle)) (k : K)
    (v : Vehicle) (m' : List (K × List Vehicle)) (h : chanRecv m k = some (v, m')) :
    ∃ q, mapGet m k = some (v :: q) ∧ m' = mapSet m k q := by
  unfold chanRecv at h
  split at h
  · rename_i v0 q hq
    simp only [Option.some.injEq, Prod.mk.injEq] at h
    obtain ⟨rfl, rfl⟩ := h
    exact ⟨q, hq, rfl⟩
  · simp at h

theorem createVehicle_fuel (id : Int) (k : Nat) (v : Vehicle) (h : createVehicle id k = some v) :
    v.fuel.name ∈ getSupportedFuels ∧ getSupportedFuels.get? k = some v.fuel.name := by
  unfold createVehicle at h
  split at h
  · simp at h
  · rename_i name hname
    simp only [Option.some.injEq] at h
    subst h
    exact ⟨List.get?_mem hname, hname⟩

/-- What an enabled creation step of the arrival generator does. -/
theorem step_create (fl : ℚ → ℚ) (s s' : State) (k : Nat) (now : Int)
    (h : step fl s (.create k now) = some s') :
    ∃ v, s.pending = none ∧ v.fuel.name ∈ getSupportedFuels ∧
      getSupportedFuels.get? k = some v.fuel.name ∧ (s.i : Int) < s.num_cars ∧
      s' = { s with pending := some v } := by
  simp only [step] at h
  split at h
  · simp at h
  · rename_i hpend
    split_ifs at h with h1
    split at h
    · simp at h
    · rename_i v0 hv0
      simp only [Option.some.injEq] at h
      obtain ⟨hf, hk⟩ := createVehicle_fuel _ _ _ hv0
      exact ⟨{ v0 with time_start_in_station_queue := now }, hpend, hf, hk, h1, h.symm⟩

/-- What an enabled send of the arrival generator does. -/
theorem step_enqueue (fl : ℚ → ℚ) (s s' : State) (order : List (Station × List Vehicle))
    (h : step fl s (.enqueue order) = some s') :
    ∃ v q, s.pending = some v ∧ order.Perm s.station_queues ∧
      mapGet s.station_queues (getShortestQueueStation order v.fuel) = some q ∧
      s' = { s with station_queues :=
                      mapSet s.station_queues (getShortestQueueStation order v.fuel) (q ++ [v]),
                    i := s.i + 1, pending := none, created := s.created ++ [v] } := by
  simp only [step] at h
  split at h
  · simp at h
  · rename_i v hpend
    split_ifs at h with h2
    split at h
    · simp at h
    · rename_i qs hqs
      obtain ⟨q, hq, rfl⟩ := chanSend_some _ _ _ _ _ hqs
      simp only [Option.some.injEq] at h
      exact ⟨v, q, hpend, h2, hq, h.symm⟩

theorem inv_create (fl : ℚ → ℚ) (s s' : State) (k : Nat) (now : Int) (hinv : Inv s)
    (h : step fl s (.create k now) = some s') : Inv s' := by
  obtain ⟨v, _, hf, _, hi, rfl⟩ := step_create fl s s' k now h
  refine ⟨hinv.created_fuel, hinv.created_len, hinv.i_le, hinv.station_side,
    hinv.register_side, hinv.served_stats, hinv.register_stats, hinv.wg_eq, hinv.wg_nonneg,
    ?_, hinv.lock_station, hinv.lock_register⟩
  intro w hw
  simp only [Option.some.injEq] at hw
  subst hw
  exact ⟨hf, hi⟩

theorem inv_enqueue (fl : ℚ → ℚ) (s s' : State) (order : List (Station × List Vehicle))
    (hinv : Inv s) (h : step fl s (.enqueue order) = some s') : Inv s' := by
  obtain ⟨v, q, hpend, _, hq, rfl⟩ := step_enqueue fl s s' order h
  obtain ⟨hf, hi⟩ := hinv.pending_ok v hpend
  refine ⟨?_, ?_, ?_, ?_, hinv.register_side, hinv.served_stats, hinv.register_stats,
    hinv.wg_eq, hinv.wg_nonneg, ?_, hinv.lock_station, hinv.lock_register⟩
  · intro w hw
    rcases List.mem_append.1 hw with hw | hw
    · exact hinv.created_fuel w hw
    · simp only [List.mem_singleton] at hw; subst hw; exact hf
  · simp [hinv.created_len]
  · simp only [Nat.cast_add, Nat.cast_one]; omega
  · intro p
    have h1 := hinv.station_side p
    have h2 := queued_mapSet p s.station_queues _ q (q ++ [v]) hq
    simp only [List.countP_append, List.countP_singleton] at h2 ⊢
    omega
  · intro w hw
    simp at hw

theorem get?_set_cases {α : Type} (l : List α) (j j' : Nat) (b a : α)
    (h : (l.set j b).get? j' = some a) :
    (j' = j ∧ a = b) ∨ (j' ≠ j ∧ l.get? j' = some a) := by
  by_cases hj : j = j'
  · subst hj
    left
    simp only [List.get?_eq_getElem?] at h
    by_cases hlt : j < l.length
    · rw [List.getElem?_set_self hlt] at h
      simp only [Option.some.injEq] at h
      exact ⟨rfl, h.symm⟩
    · rw [List.getElem?_eq_none (by simpa using hlt)] at h
      simp at h
  · right
    simp only [List.get?_eq_getElem?] at h ⊢
    rw [List.getElem?_set_ne hj] at h
    exact ⟨fun h' => hj h'.symm, h⟩

theorem total_car_mapSet_self (s s' : State) (key : String) (st : Stats) (d w : Int)
    (hget : mapGet s.stats key = some st)
    (hs : s'.stats = mapSet s.stats key (updateStats st d w)) :
    total_car s' key = total_car s key + 1 := by
  unfold total_car
  rw [hs, mapGet_mapSet_self, hget]
  exact updateStats_total_car st d w

theorem total_car_mapSet_ne (s s' : State) (key c : String) (st : Stats)
    (hne : key ≠ c) (hs : s'.stats = mapSet s.stats key st) :
    total_car s' c = total_car s c := by
  unfold total_car
  rw [hs, mapGet_mapSet_ne _ _ _ _ hne]

/-- What an enabled receive of a station worker does. -/
theorem step_stationRecv (fl : ℚ → ℚ) (s s' : State) (j : Nat)
    (h : step fl s (.stationRecv j) = some s') :
    ∃ station v q, s.stations.get? j = some station ∧ s.station_pc.get? j = some StationPc.recv ∧
      mapGet s.station_queues station = some (v :: q) ∧
      s' = { s with station_queues := mapSet s.station_queues station q,
                    station_pc := s.station_pc.set j (StationPc.lock v) } := by
  simp only [step] at h
  split at h
  · rename_i station hst hpc
    split at h
    · simp at h
    · rename_i v qs hrecv
      obtain ⟨q, hq, rfl⟩ := chanRecv_some _ _ _ _ hrecv
      simp only [Option.some.injEq] at h
      exact ⟨station, v, q, hst, hpc, hq, h.symm⟩
  · simp at h

/-- What an enabled service start of a station worker does. -/
theorem step_stationServe (fl : ℚ → ℚ) (s s' : State) (j : Nat) (r : ℚ) (now : Int)
    (h : step fl s (.stationServe j r now) = some s') :
    ∃ station v st, s.stations.get? j = some station ∧
      s.station_pc.get? j = some (StationPc.lock v) ∧ s.mu = none ∧
      mapGet s.stats v.fuel.name = some st ∧
      s' = { s with mu := some (Worker.station j),
                    stats := mapSet s.stats v.fuel.name
                      (updateStats st (serveDuration fl station r)
                        (now - v.time_start_in_station_queue)),
                    station_pc := s.station_pc.set j
                      (StationPc.sleep v (serveDuration fl station r)),
                    served := s.served ++ [v] } := by
  simp only [step] at h
  split at h
  · rename_i station v hst hpc hmu
    unfold statsUpdate at h
    split at h
    · simp at h
    · rename_i stats hstats
      split at hstats
      · simp at hstats
      · rename_i st hget
        simp only [Option.some.injEq] at hstats h
        subst hstats
        exact ⟨station, v, st, hst, hpc, hmu, hget, h.symm⟩
  · simp at h

/-- What an enabled routing step of a station worker does. -/
theorem step_stationRoute (fl : ℚ → ℚ) (s s' : State) (j : Nat) (now : Int)
    (order : List (Int × List Vehicle))
    (h : step fl s (.stationRoute j now order) = some s') :
    ∃ v d q, s.station_pc.get? j = some (StationPc.sleep v d) ∧
      order.Perm s.register_queues ∧
      mapGet s.register_queues (getShortestQueueRegister order) = some q ∧
      s' = { s with register_queues := mapSet s.register_queues (getShortestQueueRegister order)
                      (q ++ [{ v with time_start_in_register_queue := now }]),
                    mu := none,
                    station_pc := s.station_pc.set j StationPc.recv } := by
  simp only [step] at h
  split at h
  · rename_i v d hpc
    split_ifs at h with hperm
    split at h
    · simp at h
    · rename_i qs hqs
      obtain ⟨q, hq, rfl⟩ := chanSend_some _ _ _ _ _ hqs
      simp only [Option.some.injEq] at h
      exact ⟨v, d, q, hpc, hperm, hq, h.symm⟩
  · simp at h

/-- What an enabled receive of a register worker does. -/
theorem step_registerRecv (fl : ℚ → ℚ) (s s' : State) (j : Nat)
    (h : step fl s (.registerRecv j) = some s') :
    ∃ v q, s.register_pc.get? j = some RegisterPc.recv ∧
      mapGet s.register_queues (j : Int) = some (v :: q) ∧
      s' = { s with register_queues := mapSet s.register_queues (j : Int) q,
                    register_pc := s.register_pc.set j (RegisterPc.lock v) } := by
  simp only [step] at h
  split at h
  · rename_i register hreg hpc
    split at h
    · simp at h
    · rename_i v qs hrecv
      obtain ⟨q, hq, rfl⟩ := chanRecv_some _ _ _ _ hrecv
      simp only [Option.some.injEq] at h
      exact ⟨v, q, hpc, hq, h.symm⟩
  · simp at h

/-- What an enabled handling start of a register worker does. -/
theorem step_registerHandle (fl : ℚ → ℚ) (s s' : State) (j : Nat) (r : ℚ) (now : Int)
    (h : step fl s (.registerHandle j r now) = some s') :
    ∃ register v st, s.registers.get? j = some register ∧
      s.register_pc.get? j = some (RegisterPc.lock v) ∧ s.mu = none ∧
      mapGet s.stats "register" = some st ∧
      s' = { s with mu := some (Worker.register j),
                    stats := mapSet s.stats "register"
                      (updateStats st (handleDuration fl register r)
                        (now - v.time_start_in_register_queue)),
                    register_pc := s.register_pc.set j
                      (RegisterPc.sleep v (handleDuration fl register r)) } := by
  simp only [step] at h
  split at h
  · rename_i register v hreg hpc hmu
    unfold statsUpdate at h
    split at h
    · simp at h
    · rename_i stats hstats
      split at hstats
      · simp at hstats
      · rename_i st hget
        simp only [Option.some.injEq] at hstats h
        subst hstats
        exact ⟨register, v, st, hreg, hpc, hmu, hget, h.symm⟩
  · simp at h

/-- What an enabled unlock of a register worker does. -/
theorem step_registerUnlock (fl : ℚ → ℚ) (s s' : State) (j : Nat)
    (h : step fl s (.registerUnlock j) = some s') :
    ∃ v d, s.register_pc.get? j = some (RegisterPc.sleep v d) ∧
      s' = { s with mu := none, register_pc := s.register_pc.set j (RegisterPc.done v) } := by
  simp only [step] at h
  split at h
  · rename_i v d hpc
    simp only [Option.some.injEq] at h
    exact ⟨v, d, hpc, h.symm⟩
  · simp at h

/-- What an enabled `wg.Done()` of a register worker does. -/
theorem step_registerDone (fl : ℚ → ℚ) (s s' : State) (j : Nat)
    (h : step fl s (.registerDone j) = some s') :
    ∃ v, s.register_pc.get? j = some (RegisterPc.done v) ∧ 0 ≤ s.wg - 1 ∧
      s' = { s with wg := s.wg - 1, register_pc := s.register_pc.set j RegisterPc.recv,
                    exited := s.exited ++ [v] } := by
  simp only [step] at h
  split at h
  · rename_i v hpc
    split_ifs at h with hneg
    simp only [Option.some.injEq] at h
    exact ⟨v, hpc, by omega, h.symm⟩
  · simp at h

theorem inv_stationRecv (fl : ℚ → ℚ) (s s' : State) (j : Nat) (hinv : Inv s)
    (h : step fl s (.stationRecv j) = some s') : Inv s' := by
  obtain ⟨station, v, q, _, hpc, hq, rfl⟩ := step_stationRecv fl s s' j h
  refine ⟨hinv.created_fuel, hinv.created_len, hinv.i_le, ?_, ?_, hinv.served_stats,
    hinv.register_stats, hinv.wg_eq, hinv.wg_nonneg, hinv.pending_ok, ?_, hinv.lock_register⟩
  · intro p
    have h1 := hinv.station_side p
    have h2 := queued_mapSet p s.station_queues station (v :: q) q hq
    have h3 := sum_map_set (fun pc => weight p pc.unserved) s.station_pc j _
      (StationPc.lock v) hpc
    simp only [List.countP_cons, StationPc.unserved, weight, stUnserved] at h1 h2 h3 ⊢
    omega
  · have h1 := hinv.register_side
    have h3 := sum_map_set (fun pc => one pc.inDelay) s.station_pc j _ (StationPc.lock v) hpc
    simp only [StationPc.inDelay, one, stSleeping] at h1 h3 ⊢
    simp only [Bool.false_eq_true, if_false] at h3
    omega
  · intro j' pc hj' hd
    rcases get?_set_cases _ _ _ _ _ hj' with ⟨_, rfl⟩ | ⟨_, hold⟩
    · simp [StationPc.inDelay] at hd
    · exact hinv.lock_station j' pc hold hd

theorem inv_stationServe (fl : ℚ → ℚ) (s s' : State) (j : Nat) (r : ℚ) (now : Int)
    (hinv : Inv s) (h : step fl s (.stationServe j r now) = some s') : Inv s' := by
  obtain ⟨station, v, st, _, hpc, hmu, hget, rfl⟩ := step_stationServe fl s s' j r now h
  have hvreg : v.fuel.name ≠ "register" := by
    intro hv
    have h1 := hinv.station_side (hasFuel "register")
    have h2 := le_sum_map_of_get (fun pc => weight (hasFuel "register") pc.unserved)
      s.station_pc j _ hpc
    have h3 : s.created.countP (hasFuel "register") = 0 := by
      rw [List.countP_eq_zero]
      intro w hw
      have := hinv.created_fuel w hw
      simp only [hasFuel, decide_eq_true_eq]
      intro hreg
      rw [hreg] at this
      simp [getSupportedFuels] at this
    simp only [StationPc.unserved, weight, hasFuel, hv, decide_True, if_true, stUnserved]
      at h1 h2
    omega
  refine ⟨hinv.created_fuel, hinv.created_len, hinv.i_le, ?_, ?_, ?_, ?_, hinv.wg_eq, hinv.wg_nonneg, hinv.pending_ok, ?_, ?_⟩
  · intro p
    have h1 := hinv.station_side p
    have h3 := sum_map_set (fun pc => weight p pc.unserved) s.station_pc j _
      (StationPc.sleep v (serveDuration fl station r)) hpc
    simp only [List.countP_append, List.countP_singleton, StationPc.unserved, weight,
      stUnserved] at h1 h3 ⊢
    omega
  · have h1 := hinv.register_side
    have h3 := sum_map_set (fun pc => one pc.inDelay) s.station_pc j _
      (StationPc.sleep v (serveDuration fl station r)) hpc
    simp only [StationPc.inDelay, one, stSleeping] at h1 h3 ⊢
    simp only [Bool.false_eq_true, if_false, if_true] at h3
    simp only [List.length_append, List.length_singleton]
    omega
  · intro c hc
    have h1 := hinv.served_stats c hc
    by_cases hvc : v.fuel.name = c
    · subst hvc
      rw [total_car_mapSet_self s _ v.fuel.name st _ _ hget rfl, h1]
      simp [List.countP_append, List.countP_singleton, hasFuel]
    · rw [total_car_mapSet_ne s _ v.fuel.name c _ hvc rfl, h1]
      simp [List.countP_append, List.countP_singleton, hasFuel, hvc]
  · rw [total_car_mapSet_ne s _ v.fuel.name "register" _ hvreg rfl]
    exact hinv.register_stats
  · intro j' pc hj' hd
    rcases get?_set_cases _ _ _ _ _ hj' with ⟨rfl, _⟩ | ⟨_, hold⟩
    · rfl
    · have := hinv.lock_station j' pc hold hd
      rw [hmu] at this; simp at this
  · intro j' pc hj' hd
    have := hinv.lock_register j' pc hj' hd
    rw [hmu] at this; simp at this

theorem inv_stationRoute (fl : ℚ → ℚ) (s s' : State) (j : Nat) (now : Int)
    (order : List (Int × List Vehicle)) (hinv : Inv s)
    (h : step fl s (.stationRoute j now order) = some s') : Inv s' := by
  obtain ⟨v, d, q, hpc, _, hq, rfl⟩ := step_stationRoute fl s s' j now order h
  have hmu := hinv.lock_station j _ hpc rfl
  refine ⟨hinv.created_fuel, hinv.created_len, hinv.i_le, ?_, ?_, hinv.served_stats,
    hinv.register_stats, hinv.wg_eq, hinv.wg_nonneg, hinv.pending_ok, ?_, ?_⟩
  · intro p
    have h1 := hinv.station_side p
    have h3 := sum_map_set (fun pc => weight p pc.unserved) s.station_pc j _
      StationPc.recv hpc
    simp only [StationPc.unserved, weight, stUnserved] at h1 h3 ⊢
    omega
  · have h1 := hinv.register_side
    have h2 := queued_mapSet (fun _ => true) s.register_queues _ q
      (q ++ [{ v with time_start_in_register_queue := now }]) hq
    have h3 := sum_map_set (fun pc => one pc.inDelay) s.station_pc j _ StationPc.recv hpc
    simp only [StationPc.inDelay, one, stSleeping] at h1 h3 ⊢
    simp only [Bool.false_eq_true, if_false, if_true] at h3
    simp only [List.countP_append, List.countP_singleton, if_true] at h2
    omega
  · intro j' pc hj' hd
    rcases get?_set_cases _ _ _ _ _ hj' with ⟨_, rfl⟩ | ⟨hne, hold⟩
    · simp [StationPc.inDelay] at hd
    · have := hinv.lock_station j' pc hold hd
      rw [hmu] at this
      simp only [Option.some.injEq, Worker.station.injEq] at this
      exact absurd this.symm hne
  · intro j' pc hj' hd
    have := hinv.lock_register j' pc hj' hd
    rw [hmu] at this; simp at this

theorem inv_registerRecv (fl : ℚ → ℚ) (s s' : State) (j : Nat) (hinv : Inv s)
    (h : step fl s (.registerRecv j) = some s') : Inv s' := by
  obtain ⟨v, q, hpc, hq, rfl⟩ := step_registerRecv fl s s' j h
  refine ⟨hinv.created_fuel, hinv.created_len, hinv.i_le, hinv.station_side, ?_,
    hinv.served_stats, ?_, hinv.wg_eq, hinv.wg_nonneg, hinv.pending_ok, hinv.lock_station, ?_⟩
  · have h1 := hinv.register_side
    have h2 := queued_mapSet (fun _ => true) s.register_queues _ (v :: q) q hq
    have h3 := sum_map_set (fun pc => one pc.busy) s.register_pc j _ (RegisterPc.lock v) hpc
    simp only [RegisterPc.busy, one, regBusy] at h1 h3 ⊢
    simp only [Bool.false_eq_true, if_false, if_true] at h3
    simp only [List.countP_cons, if_true] at h2
    omega
  · have h1 := hinv.register_stats
    have h3 := sum_map_set (fun pc => one pc.counted) s.register_pc j _ (RegisterPc.lock v) hpc
    show total_car s "register"
      = (s.exited.length : Int) + regCounted (s.register_pc.set j (RegisterPc.lock v))
    simp only [RegisterPc.counted, one, regCounted] at h1 h3 ⊢
    omega
  · intro j' pc hj' hd
    rcases get?_set_cases _ _ _ _ _ hj' with ⟨_, rfl⟩ | ⟨_, hold⟩
    · simp [RegisterPc.inDelay] at hd
    · exact hinv.lock_register j' pc hold hd

theorem inv_registerHandle (fl : ℚ → ℚ) (s s' : State) (j : Nat) (r : ℚ) (now : Int)
    (hinv : Inv s) (h : step fl s (.registerHandle j r now) = some s') : Inv s' := by
  obtain ⟨register, v, st, _, hpc, hmu, hget, rfl⟩ := step_registerHandle fl s s' j r now h
  refine ⟨hinv.created_fuel, hinv.created_len, hinv.i_le, hinv.station_side, ?_, ?_, ?_,
    hinv.wg_eq, hinv.wg_nonneg, hinv.pending_ok, ?_, ?_⟩
  · have h1 := hinv.register_side
    have h3 := sum_map_set (fun pc => one pc.busy) s.register_pc j _
      (RegisterPc.sleep v (handleDuration fl register r)) hpc
    simp only [RegisterPc.busy, one, regBusy] at h1 h3 ⊢
    omega
  · intro c hc
    rw [total_car_mapSet_ne s _ "register" c _ (Ne.symm hc) rfl]
    exact hinv.served_stats c hc
  · have h1 := hinv.register_stats
    have h3 := sum_map_set (fun pc => one pc.counted) s.register_pc j _
      (RegisterPc.sleep v (handleDuration fl register r)) hpc
    simp only [RegisterPc.counted, one, regCounted] at h1 h3 ⊢
    simp only [Bool.false_eq_true, if_false, if_true] at h3
    rw [total_car_mapSet_self s _ "register" st _ _ hget rfl, h1]
    omega
  · intro j' pc hj' hd
    have := hinv.lock_station j' pc hj' hd
    rw [hmu] at this; simp at this
  · intro j' pc hj' hd
    rcases get?_set_cases _ _ _ _ _ hj' with ⟨rfl, _⟩ | ⟨_, hold⟩
    · rfl
    · have := hinv.lock_register j' pc hold hd
      rw [hmu] at this; simp at this

theorem inv_registerUnlock (fl : ℚ → ℚ) (s s' : State) (j : Nat) (hinv : Inv s)
    (h : step fl s (.registerUnlock j) = some s') : Inv s' := by
  obtain ⟨v, d, hpc, rfl⟩ := step_registerUnlock fl s s' j h
  have hmu := hinv.lock_register j _ hpc rfl
  refine ⟨hinv.created_fuel, hinv.created_len, hinv.i_le, hinv.station_side, ?_,
    hinv.served_stats, ?_, hinv.wg_eq, hinv.wg_nonneg, hinv.pending_ok, ?_, ?_⟩
  · have h1 := hinv.register_side
    have h3 := sum_map_set (fun pc => one pc.busy) s.register_pc j _ (RegisterPc.done v) hpc
    simp only [RegisterPc.busy, one, regBusy] at h1 h3 ⊢
    omega
  · have h1 := hinv.register_stats
    have h3 := sum_map_set (fun pc => one pc.counted) s.register_pc j _ (RegisterPc.done v) hpc
    show total_car s "register"
      = (s.exited.length : Int) + regCounted (s.register_pc.set j (RegisterPc.done v))
    simp only [RegisterPc.counted, one, regCounted] at h1 h3 ⊢
    omega
  · intro j' pc hj' hd
    have := hinv.lock_station j' pc hj' hd
    rw [hmu] at this; simp at this
  · intro j' pc hj' hd
    rcases get?_set_cases _ _ _ _ _ hj' with ⟨_, rfl⟩ | ⟨hne, hold⟩
    · simp [RegisterPc.inDelay] at hd
    · have := hinv.lock_register j' pc hold hd
      rw [hmu] at this
      simp only [Option.some.injEq, Worker.register.injEq] at this
      exact absurd this.symm hne

theorem inv_registerDone (fl : ℚ → ℚ) (s s' : State) (j : Nat) (hinv : Inv s)
    (h : step fl s (.registerDone j) = some s') : Inv s' := by
  obtain ⟨v, hpc, hwg, rfl⟩ := step_registerDone fl s s' j h
  refine ⟨hinv.created_fuel, hinv.created_len, hinv.i_le, hinv.station_side, ?_,
    hinv.served_stats, ?_, ?_, hwg, hinv.pending_ok, hinv.lock_station, ?_⟩
  · have h1 := hinv.register_side
    have h3 := sum_map_set (fun pc => one pc.busy) s.register_pc j _ RegisterPc.recv hpc
    simp only [RegisterPc.busy, one, regBusy] at h1 h3 ⊢
    simp only [Bool.false_eq_true, if_false, if_true] at h3
    simp only [List.length_append, List.length_singleton]
    omega
  · have h1 := hinv.register_stats
    have h3 := sum_map_set (fun pc => one pc.counted) s.register_pc j _ RegisterPc.recv hpc
    show total_car s "register"
      = ((s.exited ++ [v]).length : Int) + regCounted (s.register_pc.set j RegisterPc.recv)
    simp only [RegisterPc.counted, one, regCounted] at h1 h3 ⊢
    simp only [Bool.false_eq_true, if_false, if_true] at h3
    simp only [List.length_append, List.length_singleton]
    omega
  · have := hinv.wg_eq
    simp only [List.length_append, List.length_singleton]
    omega
  · intro j' pc hj' hd
    rcases get?_set_cases _ _ _ _ _ hj' with ⟨_, rfl⟩ | ⟨_, hold⟩
    · simp [RegisterPc.inDelay] at hd
    · exact hinv.lock_register j' pc hold hd

theorem inv_step (fl : ℚ → ℚ) (s s' : State) (e : Event) (hinv : Inv s)
    (h : step fl s e = some s') : Inv s' := by
  cases e with
  | create k now => exact inv_create fl s s' k now hinv h
  | enqueue order => exact inv_enqueue fl s s' order hinv h
  | stationRecv j => exact inv_stationRecv fl s s' j hinv h
  | stationServe j r now => exact inv_stationServe fl s s' j r now hinv h
  | stationRoute j now order => exact inv_stationRoute fl s s' j now order hinv h
  | registerRecv j => exact inv_registerRecv fl s s' j hinv h
  | registerHandle j r now => exact inv_registerHandle fl s s' j r now hinv h
  | registerUnlock j => exact inv_registerUnlock fl s s' j hinv h
  | registerDone j => exact inv_registerDone fl s s' j hinv h

theorem inv_reachable (fl : ℚ → ℚ) (config : Config) (s : State)
    (h : Reachable fl config s) : Inv s := by
  induction h with
  | init h0 => exact inv_init config _ h0
  | step e _ hs ih => exact inv_step fl _ _ e ih hs

/-! ## A category without stations -/

theorem getShortestQueueStation_cases (l : List (Station × List Vehicle)) (car_fuel : Fuel) :
    getShortestQueueStation l car_fuel = zeroStation ∨
      ∃ e ∈ l, e.1.fuel.name = car_fuel.name ∧ getShortestQueueStation l car_fuel = e.1 := by
  obtain ⟨_, _, h3⟩ := stationLoop_spec car_fuel l (maxInt64, zeroStation)
  rcases h3 with h3 | ⟨e, he, hf, hr⟩
  · left; unfold getShortestQueueStation; rw [h3]
  · right; exact ⟨e, he, hf, by unfold getShortestQueueStation; rw [hr]⟩

theorem step_keys (fl : ℚ → ℚ) (s s' : State) (e : Event) (h : step fl s e = some s') :
    s'.station_queues.map Prod.fst = s.station_queues.map Prod.fst := by
  cases e with
  | create k now =>
    obtain ⟨_, _, _, _, _, rfl⟩ := step_create fl s s' k now h; rfl
  | enqueue order =>
    obtain ⟨v, q, _, _, hq, rfl⟩ := step_enqueue fl s s' order h
    exact keys_mapSet_of_get _ _ _ _ hq
  | stationRecv j =>
    obtain ⟨station, v, q, _, _, hq, rfl⟩ := step_stationRecv fl s s' j h
    exact keys_mapSet_of_get _ _ _ _ hq
  | stationServe j r now =>
    obtain ⟨_, _, _, _, _, _, _, rfl⟩ := step_stationServe fl s s' j r now h; rfl
  | stationRoute j now order =>
    obtain ⟨_, _, _, _, _, _, rfl⟩ := step_stationRoute fl s s' j now order h; rfl
  | registerRecv j =>
    obtain ⟨_, _, _, _, rfl⟩ := step_registerRecv fl s s' j h; rfl
  | registerHandle j r now =>
    obtain ⟨_, _, _, _, _, _, _, rfl⟩ := step_registerHandle fl s s' j r now h; rfl
  | registerUnlock j =>
    obtain ⟨_, _, _, rfl⟩ := step_registerUnlock fl s s' j h; rfl
  | registerDone j =>
    obtain ⟨_, _, _, rfl⟩ := step_registerDone fl s s' j h; rfl

theorem initGasStation_stations (config : Config) (stations : List Station)
    (registers : List Register) (h : initGasStation config = some (stations, registers)) :
    stations = (config.map stationsOfEntry).flatten := by
  unfold initGasStation at h
  split at h
  · simp at h
  · simp only [Option.some.injEq, Prod.mk.injEq] at h
    exact h.1.symm

/-- Every key of `station_queues` is a station built from some entry of `config`. -/
theorem reachable_keys (fl : ℚ → ℚ) (config : Config) (s : State)
    (h : Reachable fl config s) :
    ∀ k ∈ s.station_queues.map Prod.fst, ∃ e ∈ config, k ∈ stationsOfEntry e := by
  induction h with
  | init h0 =>
    obtain ⟨car, stations, registers, _, _, _, hinit, _, rfl⟩ := initState_fields config _ h0
    intro k hk
    have := mkStationQueues_keys_subset stations k hk
    rw [initGasStation_stations config stations registers hinit, List.mem_flatten] at this
    obtain ⟨l, hl, hkl⟩ := this
    obtain ⟨e, he, rfl⟩ := List.mem_map.1 hl
    exact ⟨e, he, hkl⟩
  | step e _ hs ih =>
    intro k hk
    rw [step_keys fl _ _ e hs] at hk
    exact ih k hk

/-- With no station of category `c`, no vehicle of category `c` is ever enqueued. -/
theorem reachable_created_ne (fl : ℚ → ℚ) (config : Config) (c : String)
    (hno : ∀ e ∈ config, e.1 = c → e.2.num ≤ 0) (s : State) (h : Reachable fl config s) :
    ∀ v ∈ s.created, v.fuel.name ≠ c := by
  induction h with
  | init h0 =>
    obtain ⟨car, stations, registers, _, _, _, _, _, rfl⟩ := initState_fields config _ h0
    simp
  | @step s s' e hr hs ih =>
    cases e with
    | create k now =>
      obtain ⟨_, _, _, _, _, rfl⟩ := step_create fl s s' k now hs; exact ih
    | enqueue order =>
      obtain ⟨v, q, _, hperm, hq, rfl⟩ := step_enqueue fl s s' order hs
      intro w hw
      rcases List.mem_append.1 hw with hw | hw
      · exact ih w hw
      · simp only [List.mem_singleton] at hw
        subst hw
        intro hwc
        have hkey : getShortestQueueStation order w.fuel ∈ s.station_queues.map Prod.fst :=
          List.mem_map.2 ⟨_, mapGet_mem _ _ _ hq, rfl⟩
        obtain ⟨e, he, hmem⟩ := reachable_keys fl config s hr _ hkey
        obtain ⟨hsup, i, hi, hst⟩ := (mem_stationsOfEntry e _).1 hmem
        rcases getShortestQueueStation_cases order w.fuel with hz | ⟨e', _, hfe, he'⟩
        · rw [hz] at hst
          have : zeroStation.fuel.name = e.1 := by rw [hst]; rfl
          rw [← this] at hsup
          simp [zeroStation, getSupportedFuels] at hsup
        · have hname : e.1 = c := by
            have h1 : (getShortestQueueStation order w.fuel).fuel.name = e.1 := by rw [hst]; rfl
            rw [he', hfe, hwc] at h1
            exact h1.symm
          have := hno e he hname
          omega
    | stationRecv j =>
      obtain ⟨_, _, _, _, _, _, rfl⟩ := step_stationRecv fl s s' j hs; exact ih
    | stationServe j r now =>
      obtain ⟨_, _, _, _, _, _, _, rfl⟩ := step_stationServe fl s s' j r now hs; exact ih
    | stationRoute j now order =>
      obtain ⟨_, _, _, _, _, _, rfl⟩ := step_stationRoute fl s s' j now order hs; exact ih
    | registerRecv j =>
      obtain ⟨_, _, _, _, rfl⟩ := step_registerRecv fl s s' j hs; exact ih
    | registerHandle j r now =>
      obtain ⟨_, _, _, _, _, _, _, rfl⟩ := step_registerHandle fl s s' j r now hs; exact ih
    | registerUnlock j =>
      obtain ⟨_, _, _, rfl⟩ := step_registerUnlock fl s s' j hs; exact ih
    | registerDone j =>
      obtain ⟨_, _, _, rfl⟩ := step_registerDone fl s s' j hs; exact ih

theorem countP_hasFuel_eq_zero (c : String) (l : List Vehicle)
    (h : ∀ v ∈ l, v.fuel.name ≠ c) : l.countP (hasFuel c) = 0 := by
  rw [List.countP_eq_zero]
  intro v hv
  simp only [hasFuel, decide_eq_true_eq]
  exact h v hv

/-- Each created vehicle has exactly one of the four fuels. -/
theorem countP_fuels (l : List Vehicle) (h : ∀ v ∈ l, v.fuel.name ∈ getSupportedFuels) :
    l.countP (hasFuel "gas") + l.countP (hasFuel "diesel") + l.countP (hasFuel "lpg")
      + l.countP (hasFuel "electric") = l.length := by
  induction l with
  | nil => rfl
  | cons v vs ih =>
    have hv := h v (List.mem_cons_self _ _)
    have := ih (fun w hw => h w (List.mem_cons_of_mem _ hw))
    simp only [List.countP_cons, List.length_cons]
    simp only [getSupportedFuels, List.mem_cons, List.mem_singleton, List.not_mem_nil,
      or_false] at hv
    rcases hv with hv | hv | hv | hv <;> simp [hasFuel, hv] <;> omega

/-- With no station of category `c`, the router returns the zero station for category `c`,
whatever the visiting order. -/
theorem router_zero (fl : ℚ → ℚ) (config : Config) (c : String)
    (hno : ∀ e ∈ config, e.1 = c → e.2.num ≤ 0) (s : State) (hr : Reachable fl config s)
    (order : List (Station × List Vehicle)) (hperm : order.Perm s.station_queues)
    (f : Fuel) (hf : f.name = c) : getShortestQueueStation order f = zeroStation := by
  rcases getShortestQueueStation_cases order f with hz | ⟨e, he, hfe, _⟩
  · exact hz
  · exfalso
    have hkey : e.1 ∈ s.station_queues.map Prod.fst :=
      List.mem_map.2 ⟨e, hperm.mem_iff.1 he, rfl⟩
    obtain ⟨e', he', hmem⟩ := reachable_keys fl config s hr _ hkey
    obtain ⟨_, i, hi, hst⟩ := (mem_stationsOfEntry e' _).1 hmem
    have hname : e'.1 = c := by
      have h1 : e.1.fuel.name = e'.1 := by rw [hst]; rfl
      rw [← h1, hfe, hf]
    have := hno e' he' hname
    omega

/-- The zero station is never a key of `station_queues`. -/
theorem zero_no_queue (fl : ℚ → ℚ) (config : Config) (s : State)
    (hr : Reachable fl config s) : mapGet s.station_queues zeroStation = none := by
  cases h : mapGet s.station_queues zeroStation with
  | none => rfl
  | some q =>
    exfalso
    have hkey : zeroStation ∈ s.station_queues.map Prod.fst :=
      List.mem_map.2 ⟨_, mapGet_mem _ _ _ h, rfl⟩
    obtain ⟨e, _, hmem⟩ := reachable_keys fl config s hr _ hkey
    obtain ⟨hsup, i, _, hst⟩ := (mem_stationsOfEntry e _).1 hmem
    have : zeroStation.fuel.name = e.1 := by rw [hst]; rfl
    rw [← this] at hsup
    simp [zeroStation, getSupportedFuels] at hsup

/-- With no station of category `c`, the send of a vehicle of category `c` cannot proceed. -/
theorem enqueue_blocked (fl : ℚ → ℚ) (config : Config) (c : String)
    (hno : ∀ e ∈ config, e.1 = c → e.2.num ≤ 0) (s : State) (hr : Reachable fl config s)
    (v : Vehicle) (hp : s.pending = some v) (hv : v.fuel.name = c)
    (order : List (Station × List Vehicle)) : step fl s (.enqueue order) = none := by
  cases hstep : step fl s (.enqueue order) with
  | none => rfl
  | some s' =>
    exfalso
    obtain ⟨w, q, hw, hperm, hq, _⟩ := step_enqueue fl s s' order hstep
    rw [hp] at hw
    simp only [Option.some.injEq] at hw
    subst hw
    rw [router_zero fl config c hno s hr order hperm v.fuel hv,
      zero_no_queue fl config s hr] at hq
    simp at hq

/-- With no station of category `c`, a step taken while the generator holds a vehicle of
category `c` leaves the generator where it is. -/
theorem stuck_step (fl : ℚ → ℚ) (config : Config) (c : String)
    (hno : ∀ e ∈ config, e.1 = c → e.2.num ≤ 0) (s s' : State) (hr : Reachable fl config s)
    (v : Vehicle) (hp : s.pending = some v) (hv : v.fuel.name = c) (e : Event)
    (hs : step fl s e = some s') :
    s'.pending = some v ∧ s'.i = s.i ∧ s'.created = s.created := by
  cases e with
  | create k now =>
    obtain ⟨_, hnone, _⟩ := step_create fl s s' k now hs
    rw [hp] at hnone
    simp at hnone
  | enqueue order =>
    rw [enqueue_blocked fl config c hno s hr v hp hv order] at hs
    simp at hs
  | stationRecv j =>
    obtain ⟨_, _, _, _, _, _, rfl⟩ := step_stationRecv fl s s' j hs; exact ⟨hp, rfl, rfl⟩
  | stationServe j r now =>
    obtain ⟨_, _, _, _, _, _, _, rfl⟩ := step_stationServe fl s s' j r now hs
    exact ⟨hp, rfl, rfl⟩
  | stationRoute j now order =>
    obtain ⟨_, _, _, _, _, _, rfl⟩ := step_stationRoute fl s s' j now order hs
    exact ⟨hp, rfl, rfl⟩
  | registerRecv j =>
    obtain ⟨_, _, _, _, rfl⟩ := step_registerRecv fl s s' j hs; exact ⟨hp, rfl, rfl⟩
  | registerHandle j r now =>
    obtain ⟨_, _, _, _, _, _, _, rfl⟩ := step_registerHandle fl s s' j r now hs
    exact ⟨hp, rfl, rfl⟩
  | registerUnlock j =>
    obtain ⟨_, _, _, rfl⟩ := step_registerUnlock fl s s' j hs; exact ⟨hp, rfl, rfl⟩
  | registerDone j =>
    obtain ⟨_, _, _, rfl⟩ := step_registerDone fl s s' j hs; exact ⟨hp, rfl, rfl⟩

/-- With no station of category `c`, the generator that holds a vehicle of category `c` holds
it for ever: no run moves the loop counter or enqueues a vehicle. -/
theorem stuck_run (fl : ℚ → ℚ) (config : Config) (c : String)
    (hno : ∀ e ∈ config, e.1 = c → e.2.num ≤ 0) (v : Vehicle) (hv : v.fuel.name = c)
    (es : List Event) :
    ∀ s s' : State, Reachable fl config s → s.pending = some v → run fl s es = some s' →
      s'.pending = some v ∧ s'.i = s.i ∧ s'.created = s.created := by
  induction es with
  | nil =>
    intro s s' _ hp h
    simp only [run, Option.some.injEq] at h
    subst h
    exact ⟨hp, rfl, rfl⟩
  | cons e es ih =>
    intro s s' hr hp h
    simp only [run] at h
    split at h
    · simp at h
    · rename_i s1 hs1
      obtain ⟨a1, a2, a3⟩ := stuck_step fl config c hno s s1 hr v hp hv e hs1
      obtain ⟨b1, b2, b3⟩ := ih s1 s' (Reachable.step e hr hs1) a1 h
      exact ⟨b1, b2.trans a2, b3.trans a3⟩

/-- The number of vehicles stays what the configuration says. -/
theorem reachable_num_cars (fl : ℚ → ℚ) (config : Config) (s : State)
    (h : Reachable fl config s) :
    ∃ car, mapGet config "car" = some car ∧ s.num_cars = car.num := by
  induction h with
  | init h0 =>
    obtain ⟨car, _, _, hcar, _, _, _, _, rfl⟩ := initState_fields config _ h0
    exact ⟨car, hcar, rfl⟩
  | @step s s' e _ hs ih =>
    cases e with
    | create k now =>
      obtain ⟨_, _, _, _, _, rfl⟩ := step_create fl s s' k now hs; exact ih
    | enqueue order =>
      obtain ⟨_, _, _, _, _, rfl⟩ := step_enqueue fl s s' order hs; exact ih
    | stationRecv j =>
      obtain ⟨_, _, _, _, _, _, rfl⟩ := step_stationRecv fl s s' j hs; exact ih
    | stationServe j r now =>
      obtain ⟨_, _, _, _, _, _, _, rfl⟩ := step_stationServe fl s s' j r now hs; exact ih
    | stationRoute j now order =>
      obtain ⟨_, _, _, _, _, _, rfl⟩ := step_stationRoute fl s s' j now order hs; exact ih
    | registerRecv j =>
      obtain ⟨_, _, _, _, rfl⟩ := step_registerRecv fl s s' j hs; exact ih
    | registerHandle j r now =>
      obtain ⟨_, _, _, _, _, _, _, rfl⟩ := step_registerHandle fl s s' j r now hs; exact ih
    | registerUnlock j =>
      obtain ⟨_, _, _, rfl⟩ := step_registerUnlock fl s s' j hs; exact ih
    | registerDone j =>
      obtain ⟨_, _, _, rfl⟩ := step_registerDone fl s s' j hs; exact ih

/-- The initialisation succeeds exactly when `config` has a `car` entry whose count is not
negative, also as a 32-bit counter, and a `register` entry with a positive count: station
counts play no part. -/
theorem initState_isSome (config : Config) :
    (initState config).isSome = true ↔
      ∃ car reg, mapGet config "car" = some car ∧ 0 ≤ car.num ∧ 0 ≤ toInt32 car.num ∧
        mapGet config "register" = some reg ∧ 0 < reg.num := by
  constructor
  · intro h
    obtain ⟨s, hs⟩ := Option.isSome_iff_exists.1 h
    obtain ⟨car, stations, registers, hcar, h1, h2, hinit, hreg, _⟩ :=
      initState_fields config s hs
    unfold initGasStation at hinit
    split at hinit
    · simp at hinit
    · rename_i reg hregget
      simp only [Option.some.injEq, Prod.mk.injEq] at hinit
      refine ⟨car, reg, hcar, h1, h2, hregget, ?_⟩
      by_contra hle
      apply hreg
      rw [← hinit.2]
      have : reg.num.toNat = 0 := by omega
      simp [this]
  · rintro ⟨car, reg, hcar, h1, h2, hreg, hpos⟩
    have hne : (List.range reg.num.toNat).map (fun _ =>
        ({ handle_time_min := reg.serve_time_min, handle_time_max := reg.serve_time_max }
          : Register)) ≠ [] := by
      intro h
      have := congrArg List.length h
      simp at this
      omega
    simp only [initState, hcar, initGasStation, hreg]
    rw [if_neg (by omega), if_neg hne, if_neg (by omega)]
    rfl

/-! ## Two stations of one category -/

theorem mem_mapSet_cases {K V : Type} [DecidableEq K] (m : List (K × V)) (k : K) (v : V)
    (e : K × V) (h : e ∈ mapSet m k v) : e = (k, v) ∨ e ∈ m := by
  induction m with
  | nil => simp [mapSet] at h; exact Or.inl h
  | cons x xs ih =>
    obtain ⟨k0, v0⟩ := x
    by_cases hk : k0 = k
    · simp only [mapSet, hk, if_true, List.mem_cons] at h
      rcases h with h | h
      · exact Or.inl h
      · exact Or.inr (List.mem_cons_of_mem _ h)
    · simp only [mapSet, hk, if_false, List.mem_cons] at h
      rcases h with h | h
      · exact Or.inr (by rw [h]; exact List.mem_cons_self _ _)
      · rcases ih h with h | h
        · exact Or.inl h
        · exact Or.inr (List.mem_cons_of_mem _ h)

/-- Among two matching entries with distinct keys, one has a key different from `s`. -/
theorem exists_other_station (pool : List (Station × List Vehicle)) (c : Fuel) (s : Station)
    (hnd : (pool.map Prod.fst).Nodup)
    (htwo : (pool.filter fun e => decide (e.1.fuel.name = c.name)).length = 2) :
    ∃ e ∈ pool, e.1.fuel.name = c.name ∧ e.1 ≠ s := by
  have hsub : (pool.filter fun e => decide (e.1.fuel.name = c.name)).Sublist pool :=
    List.filter_sublist _
  have hnd' := hnd.sublist (hsub.map Prod.fst)
  obtain ⟨a, b, hf⟩ := List.length_eq_two.1 htwo
  rw [hf] at hnd'
  have hab : a.1 ≠ b.1 := by
    simp only [List.map_cons, List.map_nil, List.nodup_cons, List.mem_singleton] at hnd'
    exact hnd'.1
  have ha : a ∈ pool.filter (fun e => decide (e.1.fuel.name = c.name)) := by rw [hf]; simp
  have hb : b ∈ pool.filter (fun e => decide (e.1.fuel.name = c.name)) := by rw [hf]; simp
  rw [List.mem_filter] at ha hb
  by_cases h : a.1 = s
  · exact ⟨b, hb.1, by simpa using hb.2, fun hbs => hab (h.trans hbs.symm)⟩
  · exact ⟨a, ha.1, by simpa using ha.2, h⟩

/-! ## Reachability of scripted runs, further counting lemmas -/

theorem reachable_runScript (fl : ℚ → ℚ) (config : Config) (script : List (State → Event)) :
    ∀ o : Option State, (∀ s, o = some s → Reachable fl config s) →
      ∀ s, runScript fl o script = some s → Reachable fl config s := by
  induction script with
  | nil => intro o ho s hs; exact ho s hs
  | cons e es ih =>
    intro o ho s hs
    refine ih _ ?_ s hs
    intro s1 hs1
    cases o with
    | none => simp at hs1
    | some s0 => exact Reachable.step (e s0) (ho s0 rfl) hs1

theorem reachable_stateOf (fl : ℚ → ℚ) (config : Config) (script : List (State → Event))
    (h : (runScript fl (initState config) script).isSome = true) :
    Reachable fl config (stateOf (runScript fl (initState config) script)) := by
  obtain ⟨s, hs⟩ := Option.isSome_iff_exists.1 h
  rw [hs]
  exact reachable_runScript fl config script _ (fun s0 h0 => Reachable.init h0) s hs

theorem registerLoop_map (f : Vehicle → Vehicle) (l : List (Int × List Vehicle)) :
    ∀ acc : Int × Int,
      (l.map fun e => (e.1, e.2.map f)).foldl registerLoopBody acc
        = l.foldl registerLoopBody acc := by
  induction l with
  | nil => intro acc; rfl
  | cons x xs ih =>
    intro acc
    simp only [List.map_cons, List.foldl_cons]
    rw [show registerLoopBody acc (x.1, x.2.map f) = registerLoopBody acc x by
      simp [registerLoopBody]]
    exact ih _

theorem regCounted_le_regBusy (pcs : List RegisterPc) : regCounted pcs ≤ regBusy pcs := by
  induction pcs with
  | nil => simp [regCounted, regBusy]
  | cons x xs ih =>
    simp only [regCounted, regBusy, List.map_cons, List.sum_cons] at ih ⊢
    have : one x.counted ≤ one x.busy := by cases x <;> simp [one, RegisterPc.counted, RegisterPc.busy]
    omega

theorem countP_true_eq_length (l : List Vehicle) : l.countP (fun _ => true) = l.length := by
  induction l with
  | nil => rfl
  | cons x xs ih => simp [List.countP_cons, ih]

/-- In a reachable state the vehicles that have left are among those created, and at most
`num_cars` vehicles are created. -/
theorem exited_le (s : State) (hinv : Inv s) :
    s.exited.length + regBusy s.register_pc ≤ s.created.length ∧
      (s.created.length : Int) ≤ s.num_cars := by
  have h1 := hinv.register_side
  have h2 := hinv.station_side (fun _ => true)
  rw [countP_true_eq_length, countP_true_eq_length] at h2
  have h3 := hinv.created_len
  have h4 := hinv.i_le
  constructor
  · omega
  · omega

/-! ## The countdown and the lock -/

/-- At most one entry of a list satisfies `P` when any two indices of such entries agree. -/
theorem sum_one_le_one {α : Type} (P : α → Bool) (l : List α)
    (h : ∀ j j' a b, l.get? j = some a → l.get? j' = some b → P a = true → P b = true →
      j = j') :
    (l.map fun a => one (P a)).sum ≤ 1 := by
  induction l with
  | nil => simp
  | cons x xs ih =>
    have hxs := ih (fun j j' a b ha hb pa pb => by
      have := h (j + 1) (j' + 1) a b (by simpa using ha) (by simpa using hb) pa pb
      omega)
    simp only [List.map_cons, List.sum_cons]
    by_cases hx : P x = true
    · have hz : (xs.map fun a => one (P a)).sum = 0 := by
        apply sum_map_eq_zero
        intro a ha
        by_cases hpa : P a = true
        · obtain ⟨j, hj⟩ := List.get?_of_mem ha
          have := h 0 (j + 1) x a (by simp) (by simpa using hj) hx hpa
          omega
        · simp [one, hpa]
      rw [hz]
      simp [one, hx]
    · have : one (P x) = 0 := by simp [one, hx]
      omega

/-- Every worker that is inside its simulated delay holds the lock, so at most one worker,
station or register, is inside its delay. -/
theorem delay_holds_lock (fl : ℚ → ℚ) (config : Config) (s : State)
    (hr : Reachable fl config s) :
    (∀ j pc, s.station_pc.get? j = some pc → pc.inDelay = true →
        s.mu = some (Worker.station j)) ∧
      (∀ j pc, s.register_pc.get? j = some pc → pc.inDelay = true →
        s.mu = some (Worker.register j)) ∧
      stSleeping s.station_pc + regSleeping s.register_pc ≤ 1 := by
  have hinv := inv_reachable fl config s hr
  refine ⟨hinv.lock_station, hinv.lock_register, ?_⟩
  have hs : stSleeping s.station_pc ≤ 1 :=
    sum_one_le_one StationPc.inDelay s.station_pc (fun j j' a b ha hb pa pb => by
      have h1 := hinv.lock_station j a ha pa
      have h2 := hinv.lock_station j' b hb pb
      rw [h1] at h2
      simpa using h2)
  have hg : regSleeping s.register_pc ≤ 1 :=
    sum_one_le_one RegisterPc.inDelay s.register_pc (fun j j' a b ha hb pa pb => by
      have h1 := hinv.lock_register j a ha pa
      have h2 := hinv.lock_register j' b hb pb
      rw [h1] at h2
      simpa using h2)
  by_cases h0 : stSleeping s.station_pc = 0
  · omega
  · have hz : regSleeping s.register_pc = 0 := by
      apply sum_map_eq_zero
      intro pc hpc
      by_cases hd : pc.inDelay = true
      · exfalso
        obtain ⟨j, hj⟩ := List.get?_of_mem hpc
        have h1 := hinv.lock_register j pc hj hd
        apply h0
        apply sum_map_eq_zero
        intro pc' hpc'
        by_cases hd' : pc'.inDelay = true
        · obtain ⟨j', hj'⟩ := List.get?_of_mem hpc'
          have h2 := hinv.lock_station j' pc' hj' hd'
          rw [h1] at h2
          simp at h2
        · simp [one, hd']
      · simp [one, hd]
    omega

/-! ## The claims -/

/-- Claim C1: for every pool of station queues, visited in any order, and every fuel for which
the pool holds a station, `getShortestQueueStation` returns a station of the pool with that
fuel whose queue is no longer than the queue of any station of that fuel. Queue lengths are
channel lengths, hence below `math.MaxInt64`. -/
theorem getShortestQueueStation_minimal (pool order : List (Station × List Vehicle))
    (car_fuel : Fuel) (hperm : order.Perm pool)
    (hlen : ∀ e ∈ pool, (e.2.length : Int) < maxInt64)
    (hex : ∃ e ∈ pool, e.1.fuel.name = car_fuel.name) :
    ∃ q, (getShortestQueueStation order car_fuel, q) ∈ pool ∧
      (getShortestQueueStation order car_fuel).fuel.name = car_fuel.name ∧
      ∀ e ∈ pool, e.1.fuel.name = car_fuel.name → q.length ≤ e.2.length := by
  obtain ⟨e0, he0, hf0⟩ := hex
  obtain ⟨q, hq, hf, hmin⟩ := getShortestQueueStation_spec order car_fuel
    (fun e he _ => hlen e (hperm.mem_iff.1 he)) ⟨e0, hperm.mem_iff.2 he0, hf0⟩
  exact ⟨q, hperm.mem_iff.1 hq, hf, fun e he => hmin e (hperm.mem_iff.2 he)⟩

/-- A concrete instance: two busy gas stations and an idle diesel station, visited in reverse
order. -/
theorem getShortestQueueStation_minimal_witness :
    (demoPool.reverse.Perm demoPool ∧
      (∀ e ∈ demoPool, (e.2.length : Int) < maxInt64) ∧
      ∃ e ∈ demoPool, e.1.fuel.name = "gas") ∧
    ∃ q, (getShortestQueueStation demoPool.reverse { name := "gas" }, q) ∈ demoPool ∧
      (getShortestQueueStation demoPool.reverse { name := "gas" }).fuel.name = "gas" ∧
      ∀ e ∈ demoPool, e.1.fuel.name = "gas" → q.length ≤ e.2.length :=
  ⟨⟨List.reverse_perm _, by decide, by decide⟩,
    getShortestQueueStation_minimal demoPool demoPool.reverse { name := "gas" }
      (List.reverse_perm _) (by decide) (by decide)⟩

/-- Claim C2: for every non-empty pool of register queues (keyed by register index, visited in
any order), `getShortestQueueRegister` returns a key of the pool, never `-1`, whose queue is
no longer than the queue of any register; the result does not depend on the vehicles that
wait, only on how many wait. -/
theorem getShortestQueueRegister_minimal (pool order : List (Int × List Vehicle))
    (hperm : order.Perm pool) (hkeys : ∀ e ∈ pool, 0 ≤ e.1)
    (hlen : ∀ e ∈ pool, (e.2.length : Int) < maxInt64) (hne : pool ≠ []) :
    (∃ q, (getShortestQueueRegister order, q) ∈ pool ∧ ∀ e ∈ pool, q.length ≤ e.2.length) ∧
      getShortestQueueRegister order ≠ -1 ∧
      ∀ f : Vehicle → Vehicle,
        getShortestQueueRegister (order.map fun e => (e.1, e.2.map f))
          = getShortestQueueRegister order := by
  have hne' : order ≠ [] := by
    intro h; rw [h] at hperm; exact hne hperm.symm.eq_nil
  obtain ⟨q, hq, hmin⟩ := getShortestQueueRegister_spec order
    (fun e he => hlen e (hperm.mem_iff.1 he)) hne'
  refine ⟨⟨q, hperm.mem_iff.1 hq, fun e he => hmin e (hperm.mem_iff.2 he)⟩, ?_, ?_⟩
  · intro h
    have := hkeys _ (hperm.mem_iff.1 hq)
    rw [h] at this
    simp at this
  · intro f
    unfold getShortestQueueRegister
    rw [registerLoop_map]

/-- A concrete instance: two busy registers, visited in reverse order. -/
theorem getShortestQueueRegister_minimal_witness :
    (demoRegisters.reverse.Perm demoRegisters ∧ (∀ e ∈ demoRegisters, 0 ≤ e.1) ∧
      (∀ e ∈ demoRegisters, (e.2.length : Int) < maxInt64) ∧ demoRegisters ≠ []) ∧
    ((∃ q, (getShortestQueueRegister demoRegisters.reverse, q) ∈ demoRegisters ∧
        ∀ e ∈ demoRegisters, q.length ≤ e.2.length) ∧
      getShortestQueueRegister demoRegisters.reverse ≠ -1 ∧
      ∀ f : Vehicle → Vehicle,
        getShortestQueueRegister (demoRegisters.reverse.map fun e => (e.1, e.2.map f))
          = getShortestQueueRegister demoRegisters.reverse) :=
  ⟨⟨List.reverse_perm _, by decide, by decide, by decide⟩,
    getShortestQueueRegister_minimal demoRegisters demoRegisters.reverse
      (List.reverse_perm _) (by decide) (by decide) (by decide)⟩

/-- Claim C3, as stated, fails: a station with the range `[2.5, 5]` units of `time_mode` and
the draw `r = 0` gets the service duration of two units, below its minimum. -/
theorem serveDuration_below_min :
    0 ≤ halfUnitStation.serve_time_min ∧
      halfUnitStation.serve_time_min ≤ halfUnitStation.serve_time_max ∧
      (0 : ℚ) ≤ 0 ∧ (0 : ℚ) < 1 ∧
      serveDuration (fun q => q) halfUnitStation 0 = 2000000 ∧
      ¬ (halfUnitStation.serve_time_min ≤ serveDuration (fun q => q) halfUnitStation 0) := by
  have h : serveDuration (fun q => q) halfUnitStation 0 = 2000000 := by
    norm_num [serveDuration, rnd_serve_time, truncate, time_mode, halfUnitStation, Int.tdiv]
  refine ⟨by decide, by decide, le_refl _, by norm_num, h, ?_⟩
  rw [h]
  decide

/-- Claim C3, amended: for a range `0 ≤ min ≤ max` of at most `2 ^ 24` units of `time_mode`, a
draw `0 ≤ r < 1` and a rounding that is monotone and exact on the integers up to `2 ^ 24`, the
service duration of a station worker is at most `max` and at least `min` rounded down to a
whole number of units, hence at least `min` when `min` is a whole number of units; the same
holds for the handle duration of a register worker. -/
theorem duration_within_range (fl : ℚ → ℚ) (hmono : Monotone fl)
    (hexact : ∀ n : Int, 0 ≤ n → n ≤ 2 ^ 24 → fl (n : ℚ) = n)
    (station : Station) (register : Register) (r : ℚ) (hr0 : 0 ≤ r) (hr1 : r < 1)
    (hsmin : 0 ≤ station.serve_time_min)
    (hsle : station.serve_time_min ≤ station.serve_time_max)
    (hsbig : station.serve_time_max / time_mode ≤ 2 ^ 24)
    (hrmin : 0 ≤ register.handle_time_min)
    (hrle : register.handle_time_min ≤ register.handle_time_max)
    (hrbig : register.handle_time_max / time_mode ≤ 2 ^ 24) :
    (station.serve_time_min / time_mode * time_mode ≤ serveDuration fl station r ∧
      serveDuration fl station r ≤ station.serve_time_max ∧
      (time_mode ∣ station.serve_time_min →
        station.serve_time_min ≤ serveDuration fl station r)) ∧
    (register.handle_time_min / time_mode * time_mode ≤ handleDuration fl register r ∧
      handleDuration fl register r ≤ register.handle_time_max ∧
      (time_mode ∣ register.handle_time_min →
        register.handle_time_min ≤ handleDuration fl register r)) := by
  obtain ⟨s1, s2⟩ := rnd_serve_time_bounds fl hmono hexact station r hr0 hr1 hsmin hsle hsbig
  obtain ⟨r1, r2⟩ := rnd_handle_time_bounds fl hmono hexact register r hr0 hr1 hrmin hrle hrbig
  exact ⟨unit_bounds_scale _ _ _ _ _ rfl rfl s1 s2, unit_bounds_scale _ _ _ _ _ rfl rfl r1 r2⟩

/-- A concrete instance: the first gas station and a register of the source configuration,
with exact arithmetic and the draw `1 / 2`. -/
theorem duration_within_range_witness :
    (Monotone (fun q : ℚ => q) ∧
      (∀ n : Int, 0 ≤ n → n ≤ 2 ^ 24 → (fun q : ℚ => q) (n : ℚ) = n) ∧
      (0 : ℚ) ≤ 1 / 2 ∧ (1 / 2 : ℚ) < 1 ∧
      0 ≤ (mkStation "gas" gasEntry 0).serve_time_min ∧
      (mkStation "gas" gasEntry 0).serve_time_min ≤ (mkStation "gas" gasEntry 0).serve_time_max ∧
      (mkStation "gas" gasEntry 0).serve_time_max / time_mode ≤ 2 ^ 24 ∧
      0 ≤ demoRegister.handle_time_min ∧
      demoRegister.handle_time_min ≤ demoRegister.handle_time_max ∧
      demoRegister.handle_time_max / time_mode ≤ 2 ^ 24) ∧
    (((mkStation "gas" gasEntry 0).serve_time_min / time_mode * time_mode
          ≤ serveDuration (fun q => q) (mkStation "gas" gasEntry 0) (1 / 2) ∧
        serveDuration (fun q => q) (mkStation "gas" gasEntry 0) (1 / 2) ≤ (mkStation "gas" gasEntry 0).serve_time_max ∧
        (time_mode ∣ (mkStation "gas" gasEntry 0).serve_time_min →
          (mkStation "gas" gasEntry 0).serve_time_min ≤ serveDuration (fun q => q) (mkStation "gas" gasEntry 0) (1 / 2))) ∧
      (demoRegister.handle_time_min / time_mode * time_mode
          ≤ handleDuration (fun q => q) demoRegister (1 / 2) ∧
        handleDuration (fun q => q) demoRegister (1 / 2) ≤ demoRegister.handle_time_max ∧
        (time_mode ∣ demoRegister.handle_time_min →
          demoRegister.handle_time_min ≤ handleDuration (fun q => q) demoRegister (1 / 2)))) :=
  ⟨⟨fun _ _ h => h, fun _ _ _ => rfl, by norm_num, by norm_num, by decide, by decide,
      by decide, by decide, by decide, by decide⟩,
    duration_within_range (fun q => q) (fun _ _ h => h) (fun _ _ _ => rfl) (mkStation "gas" gasEntry 0)
      demoRegister (1 / 2) (by norm_num) (by norm_num) (by decide) (by decide) (by decide)
      (by decide) (by decide) (by decide)⟩

/-- Claim C4: in every reachable state in which all `num_cars` generated vehicles have been
served by a station worker, `stats[c].total_car` is the number of vehicles created with fuel
`c`, for each of the four fuels, and the four counts add up to `num_cars`. -/
theorem total_car_counts_created (fl : ℚ → ℚ) (config : Config) (s : State)
    (hr : Reachable fl config s) (hs : allServed s) :
    (∀ c ∈ getSupportedFuels, total_car s c = (s.created.countP (hasFuel c) : Int)) ∧
      total_car s "gas" + total_car s "diesel" + total_car s "lpg" + total_car s "electric"
        = s.num_cars ∧
      (s.created.length : Int) = s.num_cars := by
  have hinv := inv_reachable fl config s hr
  obtain ⟨hi, hq, hpc⟩ := hs
  have hserved : ∀ p : Vehicle → Bool, s.served.countP p = s.created.countP p := by
    intro p
    have h1 := hinv.station_side p
    have h2 := queued_eq_zero p s.station_queues hq
    have h3 : stUnserved p s.station_pc = 0 :=
      sum_map_eq_zero _ _ (fun pc hpc' => by rw [hpc pc hpc']; rfl)
    omega
  have hall : ∀ c ∈ getSupportedFuels,
      total_car s c = (s.created.countP (hasFuel c) : Int) := by
    intro c hc
    have hne : c ≠ "register" := by
      rintro rfl
      simp [getSupportedFuels] at hc
    rw [hinv.served_stats c hne, hserved]
  have hlen : (s.created.length : Int) = s.num_cars := by
    rw [hinv.created_len]; exact hi
  refine ⟨hall, ?_, hlen⟩
  rw [hall "gas" (by decide), hall "diesel" (by decide), hall "lpg" (by decide),
    hall "electric" (by decide), ← hlen, ← countP_fuels s.created hinv.created_fuel]
  push_cast
  ring

/-- A concrete instance: two vehicles, both counted by their station worker. -/
theorem total_car_counts_created_witness :
    (Reachable (fun q => q) demoConfig demoServed ∧ allServed demoServed) ∧
    ((∀ c ∈ getSupportedFuels,
        total_car demoServed c = (demoServed.created.countP (hasFuel c) : Int)) ∧
      total_car demoServed "gas" + total_car demoServed "diesel" + total_car demoServed "lpg"
        + total_car demoServed "electric" = demoServed.num_cars ∧
      (demoServed.created.length : Int) = demoServed.num_cars) :=
  ⟨⟨reachable_stateOf _ demoConfig servedScript (by decide), by unfold allServed; decide⟩,
    total_car_counts_created (fun q => q) demoConfig demoServed
      (reachable_stateOf _ demoConfig servedScript (by decide)) (by unfold allServed; decide)⟩

/-- The counter of the `WaitGroup` has 32 bits: with `2 ^ 32` vehicles the countdown starts
at zero. -/
theorem countdown_wraps :
    (initState wrapConfig).map (fun s => (s.wg, s.num_cars)) = some (0, 4294967296) := by
  decide

/-- Claim C5, as stated, fails: in the source configuration, after the arrival of a second
vehicle while the worker of register 0 sleeps, no vehicle has exited and the countdown is
still 1500, but `stats["register"].total_car` is already 1. -/
theorem countdown_differs_from_stats :
    Reachable (fun q => q) config demoPaying ∧
      demoPaying.num_cars = 1500 ∧
      demoPaying.exited = [] ∧
      demoPaying.wg = 1500 ∧
      total_car demoPaying "register" = 1 ∧
      demoPaying.wg ≠ demoPaying.num_cars - total_car demoPaying "register" :=
  ⟨reachable_stateOf _ config payingScript (by decide), by decide, by decide, by decide,
    by decide, by decide⟩

/-- Claim C5, amended: for `num_cars < 2 ^ 31` (the counter of a `WaitGroup` has 32 bits) the
countdown starts at `num_cars`; in every reachable state it equals `num_cars` minus the number
of vehicles that have exited a register; it equals
`num_cars - stats["register"].total_car` plus the number of register workers between their
statistics update and their `wg.Done()`, hence `num_cars - stats["register"].total_car` when
there is no such worker; it is not negative and no `wg.Done()` panics; and it is zero exactly
when `num_cars` vehicles have exited, in which case `stats["register"].total_car = num_cars`. -/
theorem countdown_tracks_exits (fl : ℚ → ℚ) (config : Config) (s : State)
    (hr : Reachable fl config s) (hN : s.num_cars < 2147483648) :
    (∀ s0, initState config = some s0 → s0.wg = s.num_cars) ∧
      s.wg = s.num_cars - s.exited.length ∧
      s.wg = s.num_cars - total_car s "register" + regCounted s.register_pc ∧
      (registersBetweenIterations s → s.wg = s.num_cars - total_car s "register") ∧
      0 ≤ s.wg ∧
      (∀ j v, s.register_pc.get? j = some (RegisterPc.done v) →
        (step fl s (.registerDone j)).isSome = true) ∧
      (s.wg = 0 ↔ (s.exited.length : Int) = s.num_cars) ∧
      (s.wg = 0 → total_car s "register" = s.num_cars) := by
  have hinv := inv_reachable fl config s hr
  obtain ⟨h1, h2⟩ := exited_le s hinv
  have hwg := hinv.wg_eq
  have hreg := hinv.register_stats
  have hcb := regCounted_le_regBusy s.register_pc
  have hi := hinv.i_le
  have hwrap : toInt32 s.num_cars = s.num_cars := by unfold toInt32; omega
  rw [hwrap] at hwg
  refine ⟨?_, hwg, by omega, ?_, by omega, ?_, by omega, ?_⟩
  · intro s0 h0
    obtain ⟨car, _, _, hcar, _, _, _, _, rfl⟩ := initState_fields config s0 h0
    obtain ⟨car', hcar', hnum⟩ := reachable_num_cars fl config s hr
    rw [hcar] at hcar'
    simp only [Option.some.injEq] at hcar'
    subst hcar'
    show toInt32 car.num = s.num_cars
    rw [← hnum, hwrap]
  · intro hb
    have : regCounted s.register_pc = 0 :=
      sum_map_eq_zero _ _ (fun pc hpc => by rw [hb pc hpc]; rfl)
    omega
  · intro j v hpc
    have hb : 1 ≤ regBusy s.register_pc :=
      le_sum_map_of_get (fun pc : RegisterPc => one pc.busy) s.register_pc j
        (RegisterPc.done v) hpc
    have hpos : ¬ (s.wg - 1 < 0) := by omega
    simp only [step, hpc, if_neg hpos]
    rfl
  · intro h0
    have : regCounted s.register_pc = 0 := by omega
    omega

/-- A concrete instance: one vehicle handled, its register worker in front of `wg.Done()`. -/
theorem countdown_tracks_exits_witness :
    (Reachable (fun q => q) demoConfig demoUnlocked ∧ demoUnlocked.num_cars < 2147483648) ∧
    ((∀ s0, initState demoConfig = some s0 → s0.wg = demoUnlocked.num_cars) ∧
      demoUnlocked.wg = demoUnlocked.num_cars - demoUnlocked.exited.length ∧
      demoUnlocked.wg = demoUnlocked.num_cars - total_car demoUnlocked "register"
        + regCounted demoUnlocked.register_pc ∧
      (registersBetweenIterations demoUnlocked →
        demoUnlocked.wg = demoUnlocked.num_cars - total_car demoUnlocked "register") ∧
      0 ≤ demoUnlocked.wg ∧
      (∀ j v, demoUnlocked.register_pc.get? j = some (RegisterPc.done v) →
        (step (fun q => q) demoUnlocked (.registerDone j)).isSome = true) ∧
      (demoUnlocked.wg = 0 ↔ (demoUnlocked.exited.length : Int) = demoUnlocked.num_cars) ∧
      (demoUnlocked.wg = 0 → total_car demoUnlocked "register" = demoUnlocked.num_cars)) :=
  ⟨⟨reachable_stateOf _ demoConfig unlockedScript (by decide), by decide⟩,
    countdown_tracks_exits (fun q => q) demoConfig demoUnlocked
      (reachable_stateOf _ demoConfig unlockedScript (by decide)) (by decide)⟩

/-- Claim C6: folding a non-empty list of non-negative waits into a record that starts at
`max_queue_time = -1` gives a `max_queue_time` that is at least every observed wait, equals
one of them, and is the same for every permutation of the list. -/
theorem max_queue_time_is_maximum (st : Stats) (obs : List (Int × Int))
    (hstart : st.max_queue_time = -1) (hne : obs ≠ []) (hnn : ∀ o ∈ obs, 0 ≤ o.2) :
    (∀ o ∈ obs, o.2 ≤ (recordAll st obs).max_queue_time) ∧
      (∃ o ∈ obs, (recordAll st obs).max_queue_time = o.2) ∧
      ∀ obs' : List (Int × Int), obs'.Perm obs →
        (recordAll st obs').max_queue_time = (recordAll st obs).max_queue_time := by
  have key : ∀ l : List (Int × Int), l ≠ [] → (∀ o ∈ l, 0 ≤ o.2) →
      (∀ o ∈ l, o.2 ≤ (recordAll st l).max_queue_time) ∧
        ∃ o ∈ l, (recordAll st l).max_queue_time = o.2 := by
    intro l hl hl0
    obtain ⟨_, h2, h3⟩ := recordAll_max_spec l st
    refine ⟨h2, ?_⟩
    rcases h3 with h3 | h3
    · obtain ⟨o, ho⟩ := List.exists_mem_of_ne_nil l hl
      have a := h2 o ho
      have b := hl0 o ho
      rw [h3, hstart] at a
      omega
    · exact h3
  obtain ⟨k1, k2⟩ := key obs hne hnn
  refine ⟨k1, k2, ?_⟩
  intro obs' hp
  have hne' : obs' ≠ [] := by
    intro h; rw [h] at hp; exact hne hp.symm.eq_nil
  obtain ⟨k1', o', ho', k2'⟩ := key obs' hne' (fun o ho => hnn o (hp.mem_iff.1 ho))
  obtain ⟨o, ho, k2⟩ := k2
  have a := k1 o' (hp.mem_iff.1 ho')
  have b := k1' o (hp.mem_iff.2 ho)
  omega

/-- A concrete instance: three services with waits 4, 9 and 2. -/
theorem max_queue_time_is_maximum_witness :
    (zeroStats.max_queue_time = -1 ∧ [((3 : Int), (4 : Int)), (5, 9), (2, 2)] ≠ [] ∧
      ∀ o ∈ [((3 : Int), (4 : Int)), (5, 9), (2, 2)], 0 ≤ o.2) ∧
    ((∀ o ∈ [((3 : Int), (4 : Int)), (5, 9), (2, 2)],
        o.2 ≤ (recordAll zeroStats [(3, 4), (5, 9), (2, 2)]).max_queue_time) ∧
      (∃ o ∈ [((3 : Int), (4 : Int)), (5, 9), (2, 2)],
        (recordAll zeroStats [(3, 4), (5, 9), (2, 2)]).max_queue_time = o.2) ∧
      ∀ obs' : List (Int × Int), obs'.Perm [(3, 4), (5, 9), (2, 2)] →
        (recordAll zeroStats obs').max_queue_time
          = (recordAll zeroStats [(3, 4), (5, 9), (2, 2)]).max_queue_time) :=
  ⟨⟨rfl, by decide, by decide⟩,
    max_queue_time_is_maximum zeroStats [(3, 4), (5, 9), (2, 2)] rfl (by decide) (by decide)⟩

/-- Claim C7, as stated, fails: without gas stations the startup succeeds, a diesel vehicle
is enqueued and counted, and only then the generator builds a gas vehicle, which it cannot
send. -/
theorem startup_without_gas_station :
    (∀ e ∈ noGasConfig, e.1 = "gas" → e.2.num ≤ 0) ∧
      (initState noGasConfig).isSome = true ∧
      Reachable (fun q => q) noGasConfig demoNoGas ∧
      demoNoGas.created.length = 1 ∧
      total_car demoNoGas "diesel" = 1 ∧
      demoNoGas.pending.map (fun v => v.fuel.name) = some "gas" ∧
      ∀ order, step (fun q => q) demoNoGas (.enqueue order) = none :=
  ⟨by decide, by decide, reachable_stateOf _ noGasConfig sleepScript (by decide), by decide,
    by decide, by decide,
    fun order => enqueue_blocked _ noGasConfig "gas" (by decide) demoNoGas
      (reachable_stateOf _ noGasConfig sleepScript (by decide)) _ rfl rfl order⟩

/-- Claim C7, amended: the startup does not look at station counts (it succeeds exactly when
`config` has a `car` entry with a count that is not negative, also as a 32-bit counter, and a
`register` entry with a positive count). When the configuration has no station of category
`c`, then in every reachable state no station queue belongs to category `c`, the router
returns the zero station for category `c`, which has no queue, no vehicle of category `c` has
been enqueued and `stats[c].total_car` is `0`; and once the generator has built a vehicle of
category `c` its send cannot proceed: after any further run the generator still holds that
vehicle, the loop counter has not moved and no further vehicle has been enqueued. -/
theorem category_without_station (fl : ℚ → ℚ) (config : Config) (c : String)
    (hc : c ∈ getSupportedFuels) (hno : ∀ e ∈ config, e.1 = c → e.2.num ≤ 0)
    (s : State) (hr : Reachable fl config s) :
    ((initState config).isSome = true ↔
        ∃ car reg, mapGet config "car" = some car ∧ 0 ≤ car.num ∧ 0 ≤ toInt32 car.num ∧
          mapGet config "register" = some reg ∧ 0 < reg.num) ∧
      (∀ k ∈ s.station_queues.map Prod.fst, k.fuel.name ≠ c) ∧
      (∀ order : List (Station × List Vehicle), order.Perm s.station_queues →
        getShortestQueueStation order { name := c } = zeroStation) ∧
      mapGet s.station_queues zeroStation = none ∧
      (∀ v ∈ s.created, v.fuel.name ≠ c) ∧
      total_car s c = 0 ∧
      ∀ v, s.pending = some v → v.fuel.name = c →
        (∀ order, step fl s (.enqueue order) = none) ∧
        ∀ es s', run fl s es = some s' →
          s'.pending = some v ∧ s'.i = s.i ∧ s'.created = s.created := by
  have hinv := inv_reachable fl config s hr
  have hcreated := reachable_created_ne fl config c hno s hr
  refine ⟨initState_isSome config, ?_, ?_, zero_no_queue fl config s hr, hcreated, ?_, ?_⟩
  · intro k hk hkc
    obtain ⟨e, he, hmem⟩ := reachable_keys fl config s hr k hk
    obtain ⟨_, i, hi, rfl⟩ := (mem_stationsOfEntry e k).1 hmem
    have := hno e he hkc
    omega
  · intro order hperm
    exact router_zero fl config c hno s hr order hperm _ rfl
  · have hne : c ≠ "register" := by
      rintro rfl
      simp [getSupportedFuels] at hc
    have h1 := hinv.station_side (hasFuel c)
    have h2 := countP_hasFuel_eq_zero c s.created hcreated
    rw [hinv.served_stats c hne]
    have : s.served.countP (hasFuel c) = 0 := by omega
    rw [this]; rfl
  · intro v hp hv
    exact ⟨fun order => enqueue_blocked fl config c hno s hr v hp hv order,
      fun es s' hrun => stuck_run fl config c hno v hv es s s' hr hp hrun⟩

/-- A concrete instance: the configuration without gas stations, the generator holding a gas
vehicle. -/
theorem category_without_station_witness :
    ("gas" ∈ getSupportedFuels ∧ (∀ e ∈ noGasConfig, e.1 = "gas" → e.2.num ≤ 0) ∧
      Reachable (fun q => q) noGasConfig demoNoGas) ∧
    (((initState noGasConfig).isSome = true ↔
        ∃ car reg, mapGet noGasConfig "car" = some car ∧ 0 ≤ car.num ∧ 0 ≤ toInt32 car.num ∧
          mapGet noGasConfig "register" = some reg ∧ 0 < reg.num) ∧
      (∀ k ∈ demoNoGas.station_queues.map Prod.fst, k.fuel.name ≠ "gas") ∧
      (∀ order : List (Station × List Vehicle), order.Perm demoNoGas.station_queues →
        getShortestQueueStation order { name := "gas" } = zeroStation) ∧
      mapGet demoNoGas.station_queues zeroStation = none ∧
      (∀ v ∈ demoNoGas.created, v.fuel.name ≠ "gas") ∧
      total_car demoNoGas "gas" = 0 ∧
      ∀ v, demoNoGas.pending = some v → v.fuel.name = "gas" →
        (∀ order, step (fun q => q) demoNoGas (.enqueue order) = none) ∧
        ∀ es s', run (fun q => q) demoNoGas es = some s' →
          s'.pending = some v ∧ s'.i = demoNoGas.i ∧ s'.created = demoNoGas.created) :=
  ⟨⟨by decide, by decide, reachable_stateOf _ noGasConfig sleepScript (by decide)⟩,
    category_without_station (fun q => q) noGasConfig "gas" (by decide) (by decide) demoNoGas
      (reachable_stateOf _ noGasConfig sleepScript (by decide))⟩

/-- Claim C8: in a pool with exactly two stations of category `c`, both with empty queues,
once the vehicle has been enqueued on the station `getShortestQueueStation` returned for it,
`getShortestQueueStation` returns for a second vehicle of category `c` the other station of
category `c` (whatever the visiting orders of the two calls). -/
theorem second_vehicle_other_station (pool pool' order1 order2 : List (Station × List Vehicle))
    (c : Fuel) (v : Vehicle) (cap : Int)
    (hnd : (pool.map Prod.fst).Nodup)
    (htwo : (pool.filter fun e => decide (e.1.fuel.name = c.name)).length = 2)
    (hempty : ∀ e ∈ pool, e.1.fuel.name = c.name → e.2 = [])
    (h1 : order1.Perm pool)
    (hsend : chanSend pool (getShortestQueueStation order1 c) cap v = some pool')
    (h2 : order2.Perm pool') :
    getShortestQueueStation order2 c ≠ getShortestQueueStation order1 c ∧
      (getShortestQueueStation order2 c).fuel.name = c.name ∧
      getShortestQueueStation order2 c ∈ pool.map Prod.fst := by
  obtain ⟨q0, hq0, rfl⟩ := chanSend_some _ _ _ _ _ hsend
  have hkeys := keys_mapSet_of_get pool _ q0 (q0 ++ [v]) hq0
  obtain ⟨e2, he2, hf2, hne2⟩ := exists_other_station pool c (getShortestQueueStation order1 c)
    hnd htwo
  -- the first choice is a station of the category, with an empty queue
  obtain ⟨q1, _, hs1, _⟩ := getShortestQueueStation_spec order1 c
    (fun e he hf => by rw [hempty e (h1.mem_iff.1 he) hf]; decide)
    ⟨e2, h1.mem_iff.2 he2, hf2⟩
  have hq0e : q0 = [] := hempty _ (mapGet_mem _ _ _ hq0) hs1
  subst hq0e
  -- the other station still has an empty queue after the send
  have he2' : e2 ∈ mapSet pool (getShortestQueueStation order1 c) ([] ++ [v]) :=
    mem_mapSet_of_ne _ _ _ _ he2 hne2
  obtain ⟨qt, ht, hft, hmin⟩ := getShortestQueueStation_spec order2 c
    (fun e he hf => by
      rcases mem_mapSet_cases _ _ _ _ (h2.mem_iff.1 he) with h | h
      · rw [h]; simp [maxInt64]
      · rw [hempty e h hf]; decide)
    ⟨e2, h2.mem_iff.2 he2', hf2⟩
  have hqt : qt = [] := by
    have := hmin e2 (h2.mem_iff.2 he2') hf2
    rw [hempty e2 he2 hf2] at this
    exact List.length_eq_zero.1 (Nat.le_zero.1 this)
  subst hqt
  have ht' := h2.mem_iff.1 ht
  refine ⟨?_, hft, ?_⟩
  · intro heq
    rw [heq] at ht'
    have := mapGet_of_mem_nodup _ _ _ (by rw [hkeys]; exact hnd) ht'
    rw [mapGet_mapSet_self] at this
    simp at this
  · rw [← hkeys]
    exact List.mem_map.2 ⟨_, ht', rfl⟩

/-- A concrete instance: two idle gas stations and an idle diesel station. -/
theorem second_vehicle_other_station_witness :
    ((idlePool.map Prod.fst).Nodup ∧
      (idlePool.filter fun e => decide (e.1.fuel.name = "gas")).length = 2 ∧
      (∀ e ∈ idlePool, e.1.fuel.name = "gas" → e.2 = []) ∧
      idlePool.Perm idlePool ∧
      chanSend idlePool (getShortestQueueStation idlePool { name := "gas" }) 2
        (demoVehicle 1 "gas") = some idlePoolAfter ∧
      idlePoolAfter.reverse.Perm idlePoolAfter) ∧
    (getShortestQueueStation idlePoolAfter.reverse { name := "gas" }
        ≠ getShortestQueueStation idlePool { name := "gas" } ∧
      (getShortestQueueStation idlePoolAfter.reverse { name := "gas" }).fuel.name = "gas" ∧
      getShortestQueueStation idlePoolAfter.reverse { name := "gas" }
        ∈ idlePool.map Prod.fst) :=
  ⟨⟨by decide, by decide, by decide, List.Perm.refl _, by decide, List.reverse_perm _⟩,
    second_vehicle_other_station idlePool idlePoolAfter idlePool idlePoolAfter.reverse
      { name := "gas" } (demoVehicle 1 "gas") 2 (by decide) (by decide) (by decide)
      (List.Perm.refl _) (by decide) (List.reverse_perm _)⟩

/-- Claim C9 does not hold of the code: in the source configuration the worker of `diesel_1`
is inside its service delay while it holds the lock, and the worker of `gas_1`, which holds a
vehicle of its own, cannot start its service for any draw and any clock value. -/
theorem delay_under_lock :
    Reachable (fun q => q) config demoSleeping ∧
      (demoSleeping.station_pc.get? 2).map StationPc.inDelay = some true ∧
      demoSleeping.mu = some (Worker.station 2) ∧
      ((demoSleeping.station_pc.get? 0).bind StationPc.unserved).isSome = true ∧
      ∀ (r : ℚ) (now : Int),
        step (fun q => q) demoSleeping (.stationServe 0 r now) = none :=
  ⟨reachable_stateOf _ config dieselScript (by decide), by decide, by decide, by decide,
    fun _ _ => rfl⟩

/-- Claim C10: the stations `initGasStation` returns have pairwise distinct ids; they are
exactly the stations with a supported fuel name of `config`, the id made of that name, `_`
and a sequence number from 1 to the configured count; and `station_queues` holds one queue
per station. -/
theorem station_ids_unique (config : Config) (hkeys : (config.map Prod.fst).Nodup)
    (stations : List Station) (registers : List Register)
    (h : initGasStation config = some (stations, registers)) :
    (stations.map Station.id).Nodup ∧
      stations.Nodup ∧
      (∀ s, s ∈ stations ↔ ∃ e ∈ config, e.1 ∈ getSupportedFuels ∧
        ∃ k : Nat, 1 ≤ k ∧ (k : Int) ≤ e.2.num ∧
          s = { fuel := { name := e.1 }, id := e.1 ++ "_" ++ Itoa k,
                serve_time_min := e.2.serve_time_min, serve_time_max := e.2.serve_time_max,
                numVehicle := 0 }) ∧
      (mkStationQueues stations).map Prod.fst = stations ∧
      (mkStationQueues stations).length = stations.length := by
  have hst := initGasStation_stations config stations registers h
  have hids : (stations.map Station.id).Nodup := by
    rw [hst]; exact stations_ids_nodup config hkeys
  have hnd : stations.Nodup := List.Nodup.of_map _ hids
  have hq := mkStationQueues_keys stations hnd
  refine ⟨hids, hnd, ?_, hq, ?_⟩
  · intro s
    rw [hst, List.mem_flatten]
    constructor
    · rintro ⟨l, hl, hs⟩
      obtain ⟨e, he, rfl⟩ := List.mem_map.1 hl
      obtain ⟨hsup, i, hi, rfl⟩ := (mem_stationsOfEntry e s).1 hs
      exact ⟨e, he, hsup, i + 1, by omega, by push_cast; omega, rfl⟩
    · rintro ⟨e, he, hsup, k, hk1, hk2, rfl⟩
      refine ⟨stationsOfEntry e, List.mem_map.2 ⟨e, he, rfl⟩, ?_⟩
      rw [mem_stationsOfEntry]
      refine ⟨hsup, k - 1, by omega, ?_⟩
      simp only [mkStation]
      rw [Nat.sub_add_cancel hk1]
  · have := congrArg List.length hq
    simpa using this

/-- A concrete instance: the source configuration. -/
theorem station_ids_unique_witness :
    ((config.map Prod.fst).Nodup ∧
      initGasStation config
        = some ((config.map stationsOfEntry).flatten, [demoRegister, demoRegister])) ∧
    (((config.map stationsOfEntry).flatten.map Station.id).Nodup ∧
      (config.map stationsOfEntry).flatten.Nodup ∧
      (∀ s, s ∈ (config.map stationsOfEntry).flatten ↔ ∃ e ∈ config,
        e.1 ∈ getSupportedFuels ∧
        ∃ k : Nat, 1 ≤ k ∧ (k : Int) ≤ e.2.num ∧
          s = { fuel := { name := e.1 }, id := e.1 ++ "_" ++ Itoa k,
                serve_time_min := e.2.serve_time_min, serve_time_max := e.2.serve_time_max,
                numVehicle := 0 }) ∧
      (mkStationQueues (config.map stationsOfEntry).flatten).map Prod.fst
        = (config.map stationsOfEntry).flatten ∧
      (mkStationQueues (config.map stationsOfEntry).flatten).length
        = (config.map stationsOfEntry).flatten.length) :=
  ⟨⟨by decide, by decide⟩,
    station_ids_unique config (by decide) _ [demoRegister, demoRegister] (by decide)⟩

end GasStation
